import Mathlib

/-!
Verification development for the Lifeguard Discord bot.

Part 1 embeds the natural-language time-reference replacement engine
(`_parse_and_replace_times` in `src/lifeguard/modules/time_impersonator/cog.py`).
Strings are modelled as `List Char`; the two external `dateparser` entry points
(`search_dates` and `dateparser.parse`) are taken as function parameters, since
they belong to a third-party library and only their results flow through the
algorithm under verification.

Part 2 embeds the temporary voice-lobby session manager
(`VoiceLobbyCog` in `src/lifeguard/modules/voice_lobby/cog.py`) as a pure
state-transition system over an explicit guild world (channels with member
lists) and the in-memory session map.
-/

namespace TimeImpersonator

/-- Trailing punctuation stripped from raw matches: the Python literal `"?!.,;:)"`. -/
def trailingPunct : List Char := ['?', '!', '.', ',', ';', ':', ')']

/-- Python `s.rstrip(trailing_punct)` on `List Char`. -/
def rstripPunct (s : List Char) : List Char :=
  (s.reverse.dropWhile (fun c => trailingPunct.contains c)).reverse

/-- Python `s.lower()` (ASCII is all that matters for the fixed prepositions). -/
def lowerL (s : List Char) : List Char := s.map Char.toLower

/-- The fixed preposition tuple, in source order. -/
def leadingPrepositions : List (List Char) :=
  [String.toList "at ", String.toList "by ", String.toList "from ",
   String.toList "until ", String.toList "till ", String.toList "around "]

/-- The first preposition (in tuple order) that `clean_match.lower()` starts with,
mirroring the `for prep in leading_prepositions: ... break` loop. -/
def findPrep (clean : List Char) : Option (List Char) :=
  leadingPrepositions.find? (fun p => p.isPrefixOf (lowerL clean))

/-- `time_only`: the part of `clean_match` after the detected preposition, or all
of it when no preposition is detected. -/
def timeOnlyOf (clean : List Char) : List Char :=
  match findPrep clean with
  | some p => clean.drop p.length
  | none => clean

/-- Does `pat` occur in `msg` starting exactly at index `i`? -/
def occursAt (msg pat : List Char) (i : Nat) : Bool :=
  pat.isPrefixOf (msg.drop i)

/-- Python `message.find(pat, off)`: the least index `i ≥ off` at which `pat`
occurs, `none` when there is none (Python returns `-1`). -/
def findFrom (msg pat : List Char) (off : Nat) : Option Nat :=
  (List.range (msg.length + 1)).find? (fun i => decide (off ≤ i) && occursAt msg pat i)

/-- The Discord dynamic short-time token `f"<t:{unix_ts}:t>"`. -/
def mkToken (ts : Int) : List Char :=
  String.toList "<t:" ++ String.toList (toString ts) ++ String.toList ":t>"

/-- The loop state of `_parse_and_replace_times`: the advancing literal-search
offset and the accumulated `(start_idx, len(time_only), discord_ts)` records. -/
structure PLoopState where
  searchOffset : Nat
  replacements : List (Nat × Nat × List Char)
  deriving DecidableEq, Repr

/-- One iteration of the `for matched_text, _ in results:` loop. -/
def parseStep (msg : List Char) (parseDate : List Char → Option Int)
    (st : PLoopState) (result : List Char × Int) : PLoopState :=
  let clean := rstripPunct result.1
  if clean.isEmpty then st
  else
    let tOnly := timeOnlyOf clean
    match findFrom msg clean st.searchOffset with
    | none => st
    | some fullStart =>
      let startIdx := fullStart + (clean.length - tOnly.length)
      let newOffset := fullStart + clean.length
      match parseDate clean with
      | none => { searchOffset := newOffset, replacements := st.replacements }
      | some ts =>
        { searchOffset := newOffset,
          replacements := st.replacements ++ [(startIdx, tOnly.length, mkToken ts)] }

/-- The full match-processing loop, from offset 0 with no records. -/
def collectReplacements (msg : List Char) (parseDate : List Char → Option Int)
    (results : List (List Char × Int)) : List (Nat × Nat × List Char) :=
  (results.foldl (parseStep msg parseDate) ⟨0, []⟩).replacements

/-- Descending-by-start comparison used by `replacements.sort(key=..., reverse=True)`.
Python's sort is stable, as is insertion sort with this relation. -/
def descByStart (a b : Nat × Nat × List Char) : Prop := b.1 ≤ a.1

instance : DecidableRel descByStart := fun a b => Nat.decLe b.1 a.1

/-- One in-place replacement `result[:s] + token + result[s+l:]`. -/
def applyReplacement (s : List Char) (r : Nat × Nat × List Char) : List Char :=
  s.take r.1 ++ r.2.2 ++ s.drop (r.1 + r.2.1)

/-- `_parse_and_replace_times`, with the two dateparser entry points abstracted:
`searchDates` is `dateparser.search.search_dates` (list of matched text /
instant pairs, empty standing for Python's falsy `None`/`[]`), `parseDate` is
`dateparser.parse` composed with `int(.timestamp())`. -/
def parseAndReplaceTimes (searchDates : List Char → List (List Char × Int))
    (parseDate : List Char → Option Int) (msg : List Char) : List Char :=
  let results := searchDates msg
  if results.isEmpty then msg
  else
    let recs := collectReplacements msg parseDate results
    let sorted := List.insertionSort descByStart recs
    sorted.foldl applyReplacement msg

/-- Trace of one located raw match: where its cleaned text was anchored, the
cleaned text itself, and the replacement record, if the match survived
re-parsing (`none` when `dateparser.parse` discarded it). -/
structure LocInfo where
  fullStart : Nat
  clean : List Char
  rec? : Option (Nat × Nat × List Char)
  deriving DecidableEq, Repr

/-- The located matches of the processing loop, skipped entries omitted, in
order, starting the literal search at `off`. `collectReplacements` is exactly
the `rec?` projection of this trace (proved below). -/
def traceFrom (msg : List Char) (parseDate : List Char → Option Int) :
    Nat → List (List Char × Int) → List LocInfo
  | _, [] => []
  | off, r :: rs =>
    let clean := rstripPunct r.1
    if clean.isEmpty then traceFrom msg parseDate off rs
    else
      match findFrom msg clean off with
      | none => traceFrom msg parseDate off rs
      | some fullStart =>
        ⟨fullStart, clean,
          (parseDate clean).map (fun ts =>
            (fullStart + (clean.length - (timeOnlyOf clean).length),
             (timeOnlyOf clean).length, mkToken ts))⟩ ::
          traceFrom msg parseDate (fullStart + clean.length) rs

/-- Well-formedness of a located-match trace relative to an initial search
offset: every match is anchored at or after the incoming offset, at a real
occurrence of its non-empty cleaned text, and the offset then advances just
past that occurrence. -/
def TraceOK (msg : List Char) : Nat → List LocInfo → Prop
  | _, [] => True
  | off, i :: rest =>
      off ≤ i.fullStart ∧ i.clean ≠ [] ∧ occursAt msg i.clean i.fullStart = true ∧
      TraceOK msg (i.fullStart + i.clean.length) rest

/-- Well-formedness of a replacement-record list: starts are at or after `pos`,
spans stay inside `msg`, and successive records do not overlap. -/
def RecsOK (msg : List Char) : Nat → List (Nat × Nat × List Char) → Prop
  | _, [] => True
  | pos, r :: rs => pos ≤ r.1 ∧ r.1 + r.2.1 ≤ msg.length ∧ RecsOK msg (r.1 + r.2.1) rs

/-- The result of applying an ordered, non-overlapping record list to `msg`
starting at original position `pos`: untouched segments interleaved with the
replacement tokens. -/
def renderFrom (msg : List Char) : Nat → List (Nat × Nat × List Char) → List Char
  | pos, [] => msg.drop pos
  | pos, r :: rs => ((msg.take r.1).drop pos) ++ r.2.2 ++ renderFrom msg (r.1 + r.2.1) rs

end TimeImpersonator

namespace VoiceLobby

/-- A guild member as the handler sees it: snowflake id, bot flag, role-id set. -/
structure Member where
  id : Nat
  bot : Bool
  roles : List Nat
  deriving DecidableEq, Repr

/-- A guild channel: id, whether it is a voice channel (the `isinstance`
checks), currently connected members, user limit and name. -/
structure Channel where
  id : Nat
  isVoice : Bool
  members : List Member
  userLimit : Int
  chName : List Char
  deriving DecidableEq, Repr

/-- `VoiceLobbyConfig` from `modules/voice_lobby/config.py`. The name template
is kept abstract (template rendering happens through Python `str.format`, an
external facility; its rendered result enters the model as an event input). -/
structure VoiceLobbyConfig where
  guild_id : Nat
  enabled : Bool
  entry_voice_channel_id : Option Nat
  lobby_category_id : Option Nat
  default_user_limit : Int
  creator_role_ids : List Nat
  join_role_ids : List Nat
  deriving DecidableEq, Repr

/-- `_LobbySession` from `modules/voice_lobby/cog.py`. -/
structure LobbySession where
  guild_id : Nat
  owner_id : Nat
  voice_channel_id : Nat
  deriving DecidableEq, Repr

/-- The in-memory `self._sessions_by_voice_id` dict, as an insertion-ordered
association list (Python 3.7+ dict semantics). -/
abbrev SessionMap := List (Nat × LobbySession)

/-- `dict.get(k)`. -/
def mapGet (m : SessionMap) (k : Nat) : Option LobbySession :=
  (m.find? (fun e => e.1 == k)).map (fun e => e.2)

/-- `dict.pop(k, None)` (as a state update). -/
def mapPop (m : SessionMap) (k : Nat) : SessionMap :=
  m.filter (fun e => e.1 != k)

/-- `dict[k] = v`: replace in place when the key exists (Python dicts keep the
original position), append otherwise. -/
def mapInsert (m : SessionMap) (k : Nat) (v : LobbySession) : SessionMap :=
  if (m.find? (fun e => e.1 == k)).isSome then
    m.map (fun e => if e.1 == k then (k, v) else e)
  else
    m ++ [(k, v)]

/-- `_member_has_any_role`. -/
def memberHasAnyRole (m : Member) (roleIds : List Nat) : Bool :=
  if roleIds.isEmpty then false
  else m.roles.any (fun r => roleIds.contains r)

/-- `_can_create_lobby`. -/
def canCreateLobby (m : Member) (cfg : VoiceLobbyConfig) : Bool :=
  if cfg.creator_role_ids.isEmpty then true
  else memberHasAnyRole m cfg.creator_role_ids

/-- `_can_join_lobby`. -/
def canJoinLobby (m : Member) (ownerId : Nat) (cfg : VoiceLobbyConfig) : Bool :=
  if m.id == ownerId then true
  else if cfg.join_role_ids.isEmpty then true
  else memberHasAnyRole m cfg.join_role_ids

/-- `_find_session_by_owner`: first value in dict order matching guild and owner. -/
def findSessionByOwner (m : SessionMap) (guildId ownerId : Nat) : Option LobbySession :=
  (m.map (fun e => e.2)).find?
    (fun s => s.guild_id == guildId && s.owner_id == ownerId)

/-- Model of Python `str` whitespace for channel-name sanitisation. -/
def isPySpace (c : Char) : Bool := c.isWhitespace

/-- Python `s.strip()`. -/
def stripWS (s : List Char) : List Char :=
  ((s.dropWhile isPySpace).reverse.dropWhile isPySpace).reverse

/-- Python `s.split()` (split on whitespace runs, dropping empties);
`acc` holds the current word reversed. -/
def splitWSAux : List Char → List Char → List (List Char)
  | [], acc => if acc.isEmpty then [] else [acc.reverse]
  | c :: cs, acc =>
    if isPySpace c then
      if acc.isEmpty then splitWSAux cs [] else acc.reverse :: splitWSAux cs []
    else splitWSAux cs (c :: acc)

def splitWS (s : List Char) : List (List Char) := splitWSAux s []

/-- Python `" ".join(ws)`. -/
def joinSpace : List (List Char) → List Char
  | [] => []
  | [w] => w
  | w :: ws => w ++ ' ' :: joinSpace ws

/-- `_sanitize_channel_name`: `" ".join(name.strip().split())`, default
`"Lobby"` when empty, truncated to 100 characters. -/
def sanitizeChannelName (name : List Char) : List Char :=
  let normalized := joinSpace (splitWS (stripWS name))
  if normalized.isEmpty then String.toList "Lobby"
  else normalized.take 100

/-- The guild world the handler can observe and mutate through the transport:
the set of existing channels. -/
structure GuildWorld where
  channels : List Channel
  deriving DecidableEq, Repr

/-- `guild.get_channel(cid)`. -/
def getChannel (w : GuildWorld) (cid : Nat) : Option Channel :=
  w.channels.find? (fun c => c.id == cid)

/-- `isinstance(guild.get_channel(cid), discord.VoiceChannel)`. -/
def isVoiceChannelIn (w : GuildWorld) (cid : Nat) : Bool :=
  match getChannel w cid with
  | some c => c.isVoice
  | none => false

/-- `channel.delete()` (successful case). -/
def removeChannel (w : GuildWorld) (cid : Nat) : GuildWorld :=
  ⟨w.channels.filter (fun c => c.id != cid)⟩

/-- Remove a member from every channel's member list. -/
def removeMemberEverywhere (w : GuildWorld) (mid : Nat) : GuildWorld :=
  ⟨w.channels.map (fun c => { c with members := c.members.filter (fun m => m.id != mid) })⟩

/-- `member.move_to(target)`: leave the current channel and, when `target` is a
channel, connect there. -/
def moveMemberTo (w : GuildWorld) (m : Member) (target : Option Nat) : GuildWorld :=
  let w1 := removeMemberEverywhere w m.id
  match target with
  | none => w1
  | some cid =>
    ⟨w1.channels.map (fun c => if c.id == cid then { c with members := c.members ++ [m] } else c)⟩

/-- `channel.edit(user_limit=n)`. -/
def editUserLimit (w : GuildWorld) (cid : Nat) (n : Int) : GuildWorld :=
  ⟨w.channels.map (fun c => if c.id == cid then { c with userLimit := n } else c)⟩

/-- `channel.edit(name=nm)`. -/
def editChannelName (w : GuildWorld) (cid : Nat) (nm : List Char) : GuildWorld :=
  ⟨w.channels.map (fun c => if c.id == cid then { c with chName := nm } else c)⟩

/-- The cog's mutable state plus the observable guild world. -/
structure CogState where
  sessions : SessionMap
  world : GuildWorld
  deriving DecidableEq, Repr

/-- Per-event transport behaviour: the fetched config (`repo.get_config`), the
config re-fetched inside creation (`get_or_create_config`), the rendered name
template (`str.format` output before sanitisation), whether `bot.get_guild`
finds the guild, and whether each fallible transport call succeeds (failures
are the `Forbidden`/`HTTPException` paths). `newChannelId` is the id the
transport assigns to a freshly created channel. -/
structure TransportEnv where
  config : Option VoiceLobbyConfig
  createConfig : VoiceLobbyConfig
  renderedName : List Char
  guildFound : Bool
  deleteOk : Bool
  createOk : Bool
  moveOk : Bool
  newChannelId : Nat
  deriving DecidableEq, Repr

/-- A membership-transition event: the member, the guild, and the before/after
voice channel ids. -/
structure VoiceEvent where
  member : Member
  guildId : Nat
  before : Option Nat
  after : Option Nat
  deriving DecidableEq, Repr

/-- The externally visible actions a handler run performed. -/
structure HandlerActions where
  deleteAttempted : Option Nat := none
  disconnected : Bool := false
  movedTo : Option Nat := none
  created : Option Nat := none
  deriving DecidableEq, Repr

/-- `_cleanup_lobby_if_empty`: returns the new state and the id of the channel
whose deletion was attempted, if any. -/
def cleanupLobbyIfEmpty (env : TransportEnv) (st : CogState) (vcid : Nat) :
    CogState × Option Nat :=
  match mapGet st.sessions vcid with
  | none => (st, none)
  | some session =>
    if !env.guildFound then
      ({ st with sessions := mapPop st.sessions vcid }, none)
    else
      match getChannel st.world session.voice_channel_id with
      | some ch =>
        if ch.isVoice && !ch.members.isEmpty then (st, none)
        else if ch.isVoice then
          (⟨mapPop st.sessions vcid,
            if env.deleteOk then removeChannel st.world session.voice_channel_id
            else st.world⟩,
           some session.voice_channel_id)
        else ({ st with sessions := mapPop st.sessions vcid }, none)
      | none => ({ st with sessions := mapPop st.sessions vcid }, none)

/-- `_create_lobby_for_member`: create the channel, record the session, move the
owner in. A failing create leaves everything unchanged (exception caught by the
caller); a failing move still leaves the channel created and session recorded.
Returns (state, created channel id, channel the member was moved to). -/
def createLobbyForMember (env : TransportEnv) (ev : VoiceEvent) (st : CogState) :
    CogState × Option Nat × Option Nat :=
  if !env.createOk then (st, none, none)
  else
    let newCh : Channel :=
      { id := env.newChannelId, isVoice := true, members := [],
        userLimit := max 0 (min env.createConfig.default_user_limit 99),
        chName := sanitizeChannelName env.renderedName }
    let w1 : GuildWorld := ⟨st.world.channels ++ [newCh]⟩
    let sessions1 := mapInsert st.sessions env.newChannelId
      ⟨ev.guildId, ev.member.id, env.newChannelId⟩
    if env.moveOk then
      (⟨sessions1, moveMemberTo w1 ev.member (some env.newChannelId)⟩,
       some env.newChannelId, some env.newChannelId)
    else (⟨sessions1, w1⟩, some env.newChannelId, none)

/-- Lines 329-376 of `on_voice_state_update`: everything after the
leaving-cleanup step, operating on the post-cleanup state `st1`. -/
def afterTransition (env : TransportEnv) (ev : VoiceEvent) (st1 : CogState)
    (acts0 : HandlerActions) : CogState × HandlerActions :=
  match ev.after with
  | none => (st1, acts0)
  | some afterId =>
    match env.config with
    | none => (st1, acts0)
    | some cfg =>
      if !cfg.enabled || cfg.entry_voice_channel_id.isNone then (st1, acts0)
      else
        match mapGet st1.sessions afterId with
        | some msession =>
          if ev.before == some afterId then (st1, acts0)
          else if !canJoinLobby ev.member msession.owner_id cfg then
            (⟨st1.sessions, moveMemberTo st1.world ev.member none⟩,
             { acts0 with disconnected := true })
          else (st1, acts0)
        | none =>
          if cfg.entry_voice_channel_id != some afterId then (st1, acts0)
          else if ev.before == some afterId then (st1, acts0)
          else if !canCreateLobby ev.member cfg then
            (⟨st1.sessions, moveMemberTo st1.world ev.member none⟩,
             { acts0 with disconnected := true })
          else
            match findSessionByOwner st1.sessions ev.guildId ev.member.id with
            | some active =>
              if isVoiceChannelIn st1.world active.voice_channel_id then
                (⟨st1.sessions,
                  moveMemberTo st1.world ev.member (some active.voice_channel_id)⟩,
                 { acts0 with movedTo := some active.voice_channel_id })
              else
                if !isVoiceChannelIn st1.world afterId then
                  (⟨mapPop st1.sessions active.voice_channel_id, st1.world⟩, acts0)
                else
                  let c := createLobbyForMember env ev
                    ⟨mapPop st1.sessions active.voice_channel_id, st1.world⟩
                  (c.1, { acts0 with created := c.2.1, movedTo := c.2.2 })
            | none =>
              if !isVoiceChannelIn st1.world afterId then (st1, acts0)
              else
                let c := createLobbyForMember env ev st1
                (c.1, { acts0 with created := c.2.1, movedTo := c.2.2 })

/-- `on_voice_state_update`, the core transition handler: the bot guard, the
leaving-cleanup step, then `afterTransition` on the post-cleanup state. -/
def onVoiceStateUpdate (env : TransportEnv) (ev : VoiceEvent) (st : CogState) :
    CogState × HandlerActions :=
  if ev.member.bot then (st, {}) else
  let cleaned : CogState × Option Nat :=
    match ev.before with
    | some b =>
      if (mapGet st.sessions b).isSome && ev.after != some b then
        cleanupLobbyIfEmpty env st b
      else (st, none)
    | none => (st, none)
  afterTransition env ev cleaned.1 { deleteAttempted := cleaned.2 }

/-- The ephemeral interaction responses the owner-gated operations can send. -/
inductive OpResponse where
  | serverOnly
  | ownerOnly
  | limitRange
  | channelGone
  | renamed (nm : List Char)
  | limitRemoved
  | limitSet (n : Int)
  | closing
  deriving DecidableEq, Repr

/-- `_get_lobby_owner`. -/
def getLobbyOwner (st : CogState) (vcid : Nat) : Option Nat :=
  (mapGet st.sessions vcid).map (fun s => s.owner_id)

/-- `_get_lobby_voice_channel`. -/
def getLobbyVoiceChannel (w : GuildWorld) (vcid : Nat) : Option Channel :=
  match getChannel w vcid with
  | some c => if c.isVoice then some c else none
  | none => none

/-- `update_lobby_name`. -/
def updateLobbyName (guildPresent : Bool) (userId vcid : Nat) (requested : List Char)
    (st : CogState) : CogState × OpResponse :=
  if !guildPresent then (st, .serverOnly)
  else
    let ownerId := getLobbyOwner st vcid
    if ownerId.isSome && ownerId != some userId then (st, .ownerOnly)
    else
      match getLobbyVoiceChannel st.world vcid with
      | none => (st, .channelGone)
      | some _ =>
        let safe := sanitizeChannelName requested
        (⟨st.sessions, editChannelName st.world vcid safe⟩, .renamed safe)

/-- `update_lobby_user_limit`. -/
def updateLobbyUserLimit (guildPresent : Bool) (userId vcid : Nat) (userLimit : Int)
    (st : CogState) : CogState × OpResponse :=
  if !guildPresent then (st, .serverOnly)
  else
    let ownerId := getLobbyOwner st vcid
    if ownerId.isSome && ownerId != some userId then (st, .ownerOnly)
    else if userLimit < 0 || userLimit > 99 then (st, .limitRange)
    else
      match getLobbyVoiceChannel st.world vcid with
      | none => (st, .channelGone)
      | some _ =>
        (⟨st.sessions, editUserLimit st.world vcid userLimit⟩,
         if userLimit == 0 then .limitRemoved else .limitSet userLimit)

/-- `_force_cleanup_lobby`: delete if the channel still exists (occupancy is not
consulted), then drop the record; returns the attempted deletion, if any. -/
def forceCleanupLobby (deleteOk : Bool) (st : CogState) (vcid : Nat) :
    CogState × Option Nat :=
  match mapGet st.sessions vcid with
  | none => (st, none)
  | some session =>
    match getChannel st.world session.voice_channel_id with
    | some ch =>
      if ch.isVoice then
        (⟨mapPop st.sessions vcid,
          if deleteOk then removeChannel st.world session.voice_channel_id
          else st.world⟩,
         some session.voice_channel_id)
      else ({ st with sessions := mapPop st.sessions vcid }, none)
    | none => ({ st with sessions := mapPop st.sessions vcid }, none)

/-- `close_lobby`. -/
def closeLobby (guildPresent deleteOk : Bool) (userId vcid : Nat) (st : CogState) :
    CogState × OpResponse × Option Nat :=
  if !guildPresent then (st, .serverOnly, none)
  else
    let ownerId := getLobbyOwner st vcid
    if ownerId.isSome && ownerId != some userId then (st, .ownerOnly, none)
    else
      let r := forceCleanupLobby deleteOk st vcid
      (r.1, .closing, r.2)

/-- States reachable from a fresh cog (`__init__` builds an empty session map;
the guild world at start is arbitrary) by membership-transition events and
owner operations. -/
inductive Reach : CogState → Prop where
  | init (w : GuildWorld) : Reach ⟨[], w⟩
  | voice (env : TransportEnv) (ev : VoiceEvent) (st : CogState) :
      Reach st → Reach (onVoiceStateUpdate env ev st).1
  | rename (g : Bool) (u v : Nat) (nm : List Char) (st : CogState) :
      Reach st → Reach (updateLobbyName g u v nm st).1
  | limit (g : Bool) (u v : Nat) (n : Int) (st : CogState) :
      Reach st → Reach (updateLobbyUserLimit g u v n st).1
  | close (g d : Bool) (u v : Nat) (st : CogState) :
      Reach st → Reach (closeLobby g d u v st).1

/-- Number of sessions recorded for a given (guild, owner) pair. -/
def sessionCountOwner (m : SessionMap) (g o : Nat) : Nat :=
  m.countP (fun e => e.2.guild_id == g && e.2.owner_id == o)

/-- Structural well-formedness of the session dict: at most one session per
(guild, owner), every value records the channel id it is keyed by, and keys
are distinct (dict keys). -/
def MapInv (m : SessionMap) : Prop :=
  (∀ g o, sessionCountOwner m g o ≤ 1) ∧
  (∀ e ∈ m, e.2.voice_channel_id = e.1) ∧
  (m.map (fun e => e.1)).Nodup

/-- The word-level invariant `_sanitize_channel_name` relies on: `str.split()`
only produces non-empty, whitespace-free words. -/
def GoodWords (ws : List (List Char)) : Prop :=
  ∀ w ∈ ws, w ≠ [] ∧ ∀ c ∈ w, isPySpace c = false

end VoiceLobby

namespace TimeImpersonator

lemma isPrefixOf_eq_true_iff : ∀ (p l : List Char), p.isPrefixOf l = true ↔ ∃ t, l = p ++ t := by
  intro p
  induction p with
  | nil => intro l; simp
  | cons a as ih =>
    intro l
    cases l with
    | nil => simp
    | cons b bs =>
      rw [List.isPrefixOf_cons₂, Bool.and_eq_true, beq_iff_eq, ih bs]
      constructor
      · rintro ⟨hab, t, rfl⟩
        exact ⟨t, by simp [hab]⟩
      · rintro ⟨t, ht⟩
        injection ht with h1 h2
        exact ⟨h1.symm, t, h2⟩

lemma occursAt_iff (msg pat : List Char) (i : Nat) :
    occursAt msg pat i = true ↔ ∃ t, msg.drop i = pat ++ t := by
  unfold occursAt
  exact isPrefixOf_eq_true_iff pat (msg.drop i)

lemma occursAt_bound {msg pat : List Char} {i : Nat} (h : occursAt msg pat i = true)
    (hi : i ≤ msg.length) : i + pat.length ≤ msg.length := by
  obtain ⟨t, ht⟩ := (occursAt_iff msg pat i).mp h
  have hlen := congrArg List.length ht
  simp [List.length_drop] at hlen
  omega

lemma occursAt_slice {msg pat : List Char} {i : Nat} (h : occursAt msg pat i = true) :
    (msg.drop i).take pat.length = pat := by
  obtain ⟨t, ht⟩ := (occursAt_iff msg pat i).mp h
  rw [ht, List.take_left]

lemma findFrom_some {msg pat : List Char} {off i : Nat} (h : findFrom msg pat off = some i) :
    off ≤ i ∧ occursAt msg pat i = true ∧ i ≤ msg.length := by
  have h1 := List.find?_some h
  have h2 := List.mem_of_find?_eq_some h
  simp only [List.mem_range] at h2
  simp only [Bool.and_eq_true, decide_eq_true_eq] at h1
  exact ⟨h1.1, h1.2, by omega⟩

lemma findFrom_none_mono {msg pat : List Char} (h : findFrom msg pat 0 = none) (off : Nat) :
    findFrom msg pat off = none := by
  rw [findFrom, List.find?_eq_none] at h ⊢
  intro x hx
  have hz := h x hx
  simp only [Bool.and_eq_true, decide_eq_true_eq, not_and] at hz ⊢
  intro _
  exact hz (Nat.zero_le x)

lemma findPrep_length_le {clean p : List Char} (h : findPrep clean = some p) :
    p.length ≤ clean.length := by
  have h1 := List.find?_some h
  obtain ⟨t, ht⟩ := (isPrefixOf_eq_true_iff _ _).mp h1
  have hlen := congrArg List.length ht
  simp [lowerL] at hlen
  omega

lemma timeOnly_of_prep {clean p : List Char} (h : findPrep clean = some p) :
    timeOnlyOf clean = clean.drop p.length := by
  unfold timeOnlyOf
  rw [h]

lemma timeOnly_of_none {clean : List Char} (h : findPrep clean = none) :
    timeOnlyOf clean = clean := by
  unfold timeOnlyOf
  rw [h]

lemma timeOnly_length_le (clean : List Char) : (timeOnlyOf clean).length ≤ clean.length := by
  unfold timeOnlyOf
  cases h : findPrep clean <;> simp

lemma prepLen_eq {clean p : List Char} (h : findPrep clean = some p) :
    clean.length - (timeOnlyOf clean).length = p.length := by
  have hle := findPrep_length_le h
  rw [timeOnly_of_prep h]
  simp [List.length_drop]
  omega

lemma lowerL_take_prep {clean p : List Char} (h : findPrep clean = some p) :
    lowerL (clean.take p.length) = p := by
  have h1 := List.find?_some h
  obtain ⟨t, ht⟩ := (isPrefixOf_eq_true_iff _ _).mp h1
  unfold lowerL at ht ⊢
  rw [List.map_take, ht, List.take_left]

lemma foldl_parseStep_eq_trace (msg : List Char) (parseDate : List Char → Option Int) :
    ∀ (rs : List (List Char × Int)) (off : Nat) (acc : List (Nat × Nat × List Char)),
    (rs.foldl (parseStep msg parseDate) ⟨off, acc⟩).replacements =
      acc ++ (traceFrom msg parseDate off rs).filterMap (fun i => i.rec?) := by
  intro rs
  induction rs with
  | nil => intro off acc; simp [traceFrom]
  | cons r rest ih =>
    intro off acc
    rw [List.foldl_cons]
    cases hclean : (rstripPunct r.1).isEmpty with
    | true =>
      have hstep : parseStep msg parseDate ⟨off, acc⟩ r = ⟨off, acc⟩ := by
        simp [parseStep, hclean]
      have htr : traceFrom msg parseDate off (r :: rest) =
          traceFrom msg parseDate off rest := by
        simp [traceFrom, hclean]
      rw [hstep, htr, ih]
    | false =>
      cases hf : findFrom msg (rstripPunct r.1) off with
      | none =>
        have hstep : parseStep msg parseDate ⟨off, acc⟩ r = ⟨off, acc⟩ := by
          simp [parseStep, hclean, hf]
        have htr : traceFrom msg parseDate off (r :: rest) =
            traceFrom msg parseDate off rest := by
          simp [traceFrom, hclean, hf]
        rw [hstep, htr, ih]
      | some fullStart =>
        cases hp : parseDate (rstripPunct r.1) with
        | none =>
          have hstep : parseStep msg parseDate ⟨off, acc⟩ r =
              ⟨fullStart + (rstripPunct r.1).length, acc⟩ := by
            simp [parseStep, hclean, hf, hp]
          have htr : traceFrom msg parseDate off (r :: rest) =
              ⟨fullStart, rstripPunct r.1, none⟩ ::
                traceFrom msg parseDate (fullStart + (rstripPunct r.1).length) rest := by
            simp [traceFrom, hclean, hf, hp]
          rw [hstep, htr, ih, List.filterMap_cons]
        | some ts =>
          have hstep : parseStep msg parseDate ⟨off, acc⟩ r =
              ⟨fullStart + (rstripPunct r.1).length,
                acc ++ [(fullStart + ((rstripPunct r.1).length - (timeOnlyOf (rstripPunct r.1)).length),
                  (timeOnlyOf (rstripPunct r.1)).length, mkToken ts)]⟩ := by
            simp [parseStep, hclean, hf, hp]
          have htr : traceFrom msg parseDate off (r :: rest) =
              ⟨fullStart, rstripPunct r.1,
                some (fullStart + ((rstripPunct r.1).length - (timeOnlyOf (rstripPunct r.1)).length),
                  (timeOnlyOf (rstripPunct r.1)).length, mkToken ts)⟩ ::
                traceFrom msg parseDate (fullStart + (rstripPunct r.1).length) rest := by
            simp [traceFrom, hclean, hf, hp]
          rw [hstep, htr, ih, List.filterMap_cons]
          simp

lemma collectReplacements_eq_trace (msg : List Char) (parseDate : List Char → Option Int)
    (results : List (List Char × Int)) :
    collectReplacements msg parseDate results =
      (traceFrom msg parseDate 0 results).filterMap (fun i => i.rec?) := by
  unfold collectReplacements
  rw [foldl_parseStep_eq_trace]
  simp

lemma traceOK_traceFrom (msg : List Char) (parseDate : List Char → Option Int) :
    ∀ (rs : List (List Char × Int)) (off : Nat),
      TraceOK msg off (traceFrom msg parseDate off rs) := by
  intro rs
  induction rs with
  | nil => intro off; simp [traceFrom, TraceOK]
  | cons r rest ih =>
    intro off
    cases hclean : (rstripPunct r.1).isEmpty with
    | true =>
      simp only [traceFrom, hclean, if_true]
      exact ih off
    | false =>
      cases hf : findFrom msg (rstripPunct r.1) off with
      | none =>
        simp only [traceFrom, hclean, if_false, hf]
        exact ih off
      | some fullStart =>
        simp only [traceFrom, hclean, if_false, hf, TraceOK]
        obtain ⟨h1, h2, _⟩ := findFrom_some hf
        refine ⟨h1, ?_, h2, ih _⟩
        intro hnil
        rw [hnil] at hclean
        simp at hclean

lemma traceOK_mem {msg : List Char} : ∀ {t : List LocInfo} {off : Nat}, TraceOK msg off t →
    ∀ i ∈ t, off ≤ i.fullStart ∧ i.clean ≠ [] ∧ occursAt msg i.clean i.fullStart = true := by
  intro t
  induction t with
  | nil => intro off _ i hi; cases hi
  | cons a rest ih =>
    intro off h i hi
    rw [TraceOK] at h
    obtain ⟨h1, h2, h3, h4⟩ := h
    cases hi with
    | head => exact ⟨h1, h2, h3⟩
    | tail _ hmem =>
      have hrest := ih h4 i hmem
      exact ⟨by omega, hrest.2.1, hrest.2.2⟩

lemma traceOK_pairwise {msg : List Char} : ∀ {t : List LocInfo} {off : Nat}, TraceOK msg off t →
    List.Pairwise (fun a b => a.fullStart + a.clean.length ≤ b.fullStart) t := by
  intro t
  induction t with
  | nil => intro off _; exact List.Pairwise.nil
  | cons a rest ih =>
    intro off h
    rw [TraceOK] at h
    obtain ⟨_, _, _, h4⟩ := h
    refine List.Pairwise.cons ?_ (ih h4)
    intro b hb
    exact (traceOK_mem h4 b hb).1

lemma trace_rec_shape (msg : List Char) (parseDate : List Char → Option Int) :
    ∀ (rs : List (List Char × Int)) (off : Nat) (i : LocInfo),
      i ∈ traceFrom msg parseDate off rs →
      ∀ r, i.rec? = some r →
        ∃ ts, parseDate i.clean = some ts ∧
          r = (i.fullStart + (i.clean.length - (timeOnlyOf i.clean).length),
               (timeOnlyOf i.clean).length, mkToken ts) := by
  intro rs
  induction rs with
  | nil => intro off i hi; simp [traceFrom] at hi
  | cons r rest ih =>
    intro off i hi
    cases hclean : (rstripPunct r.1).isEmpty with
    | true =>
      have htr : traceFrom msg parseDate off (r :: rest) =
          traceFrom msg parseDate off rest := by
        simp [traceFrom, hclean]
      rw [htr] at hi
      exact ih off i hi
    | false =>
      cases hf : findFrom msg (rstripPunct r.1) off with
      | none =>
        have htr : traceFrom msg parseDate off (r :: rest) =
            traceFrom msg parseDate off rest := by
          simp [traceFrom, hclean, hf]
        rw [htr] at hi
        exact ih off i hi
      | some fullStart =>
        have htr : traceFrom msg parseDate off (r :: rest) =
            ⟨fullStart, rstripPunct r.1,
              (parseDate (rstripPunct r.1)).map (fun ts =>
                (fullStart + ((rstripPunct r.1).length - (timeOnlyOf (rstripPunct r.1)).length),
                 (timeOnlyOf (rstripPunct r.1)).length, mkToken ts))⟩ ::
              traceFrom msg parseDate (fullStart + (rstripPunct r.1).length) rest := by
          simp [traceFrom, hclean, hf]
        rw [htr] at hi
        rcases List.mem_cons.mp hi with heq | hmem
        · subst heq
          intro q hq
          cases hp : parseDate (rstripPunct r.1) with
          | none => simp [hp] at hq
          | some ts =>
            simp at hq ⊢
            obtain ⟨a, ha, htuple⟩ := hq
            rw [hp] at ha
            injection ha with haa
            subst haa
            exact htuple.symm
        · exact ih _ i hmem

lemma recsOK_traceFrom (msg : List Char) (parseDate : List Char → Option Int) :
    ∀ (rs : List (List Char × Int)) (off pos : Nat), pos ≤ off →
      RecsOK msg pos ((traceFrom msg parseDate off rs).filterMap (fun i => i.rec?)) := by
  intro rs
  induction rs with
  | nil => intro off pos _; simp [traceFrom, RecsOK]
  | cons r rest ih =>
    intro off pos hpos
    cases hclean : (rstripPunct r.1).isEmpty with
    | true =>
      have htr : traceFrom msg parseDate off (r :: rest) =
          traceFrom msg parseDate off rest := by
        simp [traceFrom, hclean]
      rw [htr]
      exact ih off pos hpos
    | false =>
      cases hf : findFrom msg (rstripPunct r.1) off with
      | none =>
        have htr : traceFrom msg parseDate off (r :: rest) =
            traceFrom msg parseDate off rest := by
          simp [traceFrom, hclean, hf]
        rw [htr]
        exact ih off pos hpos
      | some fullStart =>
        obtain ⟨hof, hocc, hlen⟩ := findFrom_some hf
        have hb := occursAt_bound hocc hlen
        have hto := timeOnly_length_le (rstripPunct r.1)
        cases hp : parseDate (rstripPunct r.1) with
        | none =>
          have htr : traceFrom msg parseDate off (r :: rest) =
              ⟨fullStart, rstripPunct r.1, none⟩ ::
                traceFrom msg parseDate (fullStart + (rstripPunct r.1).length) rest := by
            simp [traceFrom, hclean, hf, hp]
          rw [htr, List.filterMap_cons]
          exact ih _ pos (by omega)
        | some ts =>
          have htr : traceFrom msg parseDate off (r :: rest) =
              ⟨fullStart, rstripPunct r.1,
                some (fullStart + ((rstripPunct r.1).length - (timeOnlyOf (rstripPunct r.1)).length),
                  (timeOnlyOf (rstripPunct r.1)).length, mkToken ts)⟩ ::
                traceFrom msg parseDate (fullStart + (rstripPunct r.1).length) rest := by
            simp [traceFrom, hclean, hf, hp]
          rw [htr, List.filterMap_cons]
          simp only [RecsOK]
          refine ⟨by omega, by omega, ?_⟩
          have heq : fullStart + ((rstripPunct r.1).length - (timeOnlyOf (rstripPunct r.1)).length) +
              (timeOnlyOf (rstripPunct r.1)).length = fullStart + (rstripPunct r.1).length := by
            omega
          rw [heq]
          exact ih _ _ (Nat.le_refl _)

lemma recsOK_le {msg : List Char} :
    ∀ {recs : List (Nat × Nat × List Char)} {pos : Nat}, RecsOK msg pos recs →
      ∀ r ∈ recs, pos ≤ r.1 := by
  intro recs
  induction recs with
  | nil => intro pos _ r hr; cases hr
  | cons a rest ih =>
    intro pos h r hr
    rw [RecsOK] at h
    obtain ⟨h1, _, h3⟩ := h
    cases hr with
    | head => exact h1
    | tail _ hmem =>
      have := ih h3 r hmem
      omega

lemma recsOK_pairwise {msg : List Char} :
    ∀ {recs : List (Nat × Nat × List Char)} {pos : Nat}, RecsOK msg pos recs →
      List.Pairwise (fun a b => a.1 + a.2.1 ≤ b.1) recs := by
  intro recs
  induction recs with
  | nil => intro pos _; exact List.Pairwise.nil
  | cons a rest ih =>
    intro pos h
    rw [RecsOK] at h
    obtain ⟨_, h2, h3⟩ := h
    refine List.Pairwise.cons ?_ (ih h3)
    intro b hb
    have := recsOK_le h3 b hb
    omega

lemma recsOK_strict {msg : List Char} {recs : List (Nat × Nat × List Char)} {pos : Nat}
    (h : RecsOK msg pos recs) (hpos : ∀ r ∈ recs, 0 < r.2.1) :
    List.Pairwise (fun a b => a.1 < b.1) recs := by
  refine (recsOK_pairwise h).imp_of_mem ?_
  intro a b ha _ hrel
  have := hpos a ha
  omega

lemma orderedInsert_desc_append (r : Nat × Nat × List Char) :
    ∀ (l : List (Nat × Nat × List Char)), (∀ b ∈ l, ¬ descByStart r b) →
      l.orderedInsert descByStart r = l ++ [r] := by
  intro l
  induction l with
  | nil => intro _; rfl
  | cons b rest ih =>
    intro h
    have hrest := ih (fun x hx => h x (List.mem_cons_of_mem _ hx))
    rw [List.orderedInsert, if_neg (h b (List.mem_cons_self b rest)), hrest]
    rfl

lemma insertionSort_desc_reverse :
    ∀ (recs : List (Nat × Nat × List Char)), List.Pairwise (fun a b => a.1 < b.1) recs →
      List.insertionSort descByStart recs = recs.reverse := by
  intro recs
  induction recs with
  | nil => intro _; rfl
  | cons a rest ih =>
    intro h
    obtain ⟨ha, hrest⟩ := List.pairwise_cons.mp h
    rw [List.insertionSort, ih hrest, orderedInsert_desc_append, List.reverse_cons]
    intro b hb
    have hbm : b ∈ rest := List.mem_reverse.mp hb
    have := ha b hbm
    unfold descByStart
    omega

lemma drop_take_append_drop : ∀ (l : List Char) (pos k : Nat), pos ≤ k →
    (l.take k).drop pos ++ l.drop k = l.drop pos := by
  intro l
  induction l with
  | nil => intro pos k _; simp
  | cons c t ih =>
    intro pos k h
    cases k with
    | zero =>
      have hp0 : pos = 0 := Nat.le_zero.mp h
      simp [hp0]
    | succ k' =>
      cases pos with
      | zero => simp
      | succ p' =>
        simp only [List.take_succ_cons, List.drop_succ_cons]
        exact ih p' k' (Nat.le_of_succ_le_succ h)

lemma slice_split (msg : List Char) {pos k b : Nat} (h1 : pos ≤ k) (h2 : k ≤ b) :
    (msg.take b).drop pos = (msg.take k).drop pos ++ (msg.take b).drop k := by
  have hkk : (msg.take b).take k = msg.take k := by
    rw [List.take_take, Nat.min_eq_left h2]
  rw [← hkk]
  exact (drop_take_append_drop (msg.take b) pos k h1).symm

lemma foldl_apply_reverse (msg : List Char) :
    ∀ (recs : List (Nat × Nat × List Char)) (pos : Nat), RecsOK msg pos recs →
      (recs.reverse).foldl applyReplacement msg = msg.take pos ++ renderFrom msg pos recs := by
  intro recs
  induction recs with
  | nil =>
    intro pos _
    simp [renderFrom]
  | cons r rest ih =>
    intro pos h
    rw [RecsOK] at h
    obtain ⟨h1, h2, h3⟩ := h
    rw [List.reverse_cons, List.foldl_append, List.foldl_cons, List.foldl_nil, ih _ h3]
    unfold applyReplacement
    have hlen : (msg.take (r.1 + r.2.1)).length = r.1 + r.2.1 := by
      rw [List.length_take]
      omega
    have htake : (msg.take (r.1 + r.2.1) ++ renderFrom msg (r.1 + r.2.1) rest).take r.1 =
        msg.take r.1 := by
      rw [List.take_append_of_le_length (by omega), List.take_take,
        Nat.min_eq_left (by omega)]
    have hdrop : (msg.take (r.1 + r.2.1) ++ renderFrom msg (r.1 + r.2.1) rest).drop (r.1 + r.2.1) =
        renderFrom msg (r.1 + r.2.1) rest := List.drop_left' hlen
    rw [htake, hdrop, renderFrom]
    have hjoin : msg.take pos ++ (msg.take r.1).drop pos = msg.take r.1 := by
      have hpp : (msg.take r.1).take pos = msg.take pos := by
        rw [List.take_take, Nat.min_eq_left h1]
      rw [← hpp, List.take_append_drop]
    rw [← List.append_assoc, ← List.append_assoc, hjoin, List.append_assoc]

lemma render_decomp (msg : List Char) (parseDate : List Char → Option Int) :
    ∀ (rs : List (List Char × Int)) (off pos : Nat), pos ≤ off →
      ∀ i ∈ traceFrom msg parseDate off rs, ∀ r, i.rec? = some r →
        ∃ u v,
          renderFrom msg pos ((traceFrom msg parseDate off rs).filterMap (fun x => x.rec?)) =
            u ++ (msg.take r.1).drop i.fullStart ++ r.2.2 ++ v := by
  intro rs
  induction rs with
  | nil => intro off pos _ i hi; simp [traceFrom] at hi
  | cons r0 rest ih =>
    intro off pos hpos i hi
    cases hclean : (rstripPunct r0.1).isEmpty with
    | true =>
      have htr : traceFrom msg parseDate off (r0 :: rest) =
          traceFrom msg parseDate off rest := by
        simp [traceFrom, hclean]
      rw [htr] at hi ⊢
      exact ih off pos hpos i hi
    | false =>
      cases hf : findFrom msg (rstripPunct r0.1) off with
      | none =>
        have htr : traceFrom msg parseDate off (r0 :: rest) =
            traceFrom msg parseDate off rest := by
          simp [traceFrom, hclean, hf]
        rw [htr] at hi ⊢
        exact ih off pos hpos i hi
      | some fullStart =>
        obtain ⟨hof, hocc, hilen⟩ := findFrom_some hf
        have hto := timeOnly_length_le (rstripPunct r0.1)
        cases hp : parseDate (rstripPunct r0.1) with
        | none =>
          have htr : traceFrom msg parseDate off (r0 :: rest) =
              ⟨fullStart, rstripPunct r0.1, none⟩ ::
                traceFrom msg parseDate (fullStart + (rstripPunct r0.1).length) rest := by
            simp [traceFrom, hclean, hf, hp]
          rw [htr] at hi ⊢
          rw [List.filterMap_cons]
          rcases List.mem_cons.mp hi with heq | hmem
          · intro q hq
            subst heq
            simp at hq
          · intro q hq
            exact ih _ pos (by omega) i hmem q hq
        | some ts =>
          have htr : traceFrom msg parseDate off (r0 :: rest) =
              ⟨fullStart, rstripPunct r0.1,
                some (fullStart + ((rstripPunct r0.1).length - (timeOnlyOf (rstripPunct r0.1)).length),
                  (timeOnlyOf (rstripPunct r0.1)).length, mkToken ts)⟩ ::
                traceFrom msg parseDate (fullStart + (rstripPunct r0.1).length) rest := by
            simp [traceFrom, hclean, hf, hp]
          rw [htr] at hi ⊢
          rw [List.filterMap_cons]
          have harith : fullStart + ((rstripPunct r0.1).length - (timeOnlyOf (rstripPunct r0.1)).length) +
              (timeOnlyOf (rstripPunct r0.1)).length = fullStart + (rstripPunct r0.1).length := by
            omega
          rcases List.mem_cons.mp hi with heq | hmem
          · intro q hq
            subst heq
            simp only [Option.some_inj] at hq
            subst hq
            refine ⟨(msg.take fullStart).drop pos,
              renderFrom msg (fullStart + (rstripPunct r0.1).length)
                ((traceFrom msg parseDate (fullStart + (rstripPunct r0.1).length) rest).filterMap
                  (fun x => x.rec?)), ?_⟩
            rw [renderFrom, harith]
            rw [slice_split msg (le_trans hpos hof) (Nat.le_add_right _ _)]
          · intro q hq
            obtain ⟨u', v', hrenr⟩ := ih (fullStart + (rstripPunct r0.1).length)
              (fullStart + (rstripPunct r0.1).length) (Nat.le_refl _) i hmem q hq
            refine ⟨(msg.take (fullStart +
                ((rstripPunct r0.1).length - (timeOnlyOf (rstripPunct r0.1)).length))).drop pos ++
                mkToken ts ++ u', v', ?_⟩
            rw [renderFrom, harith, hrenr]
            simp [List.append_assoc]

lemma parseRT_eq_render (msg : List Char) (searchDates : List Char → List (List Char × Int))
    (parseDate : List Char → Option Int)
    (hpos : ∀ r ∈ collectReplacements msg parseDate (searchDates msg), 0 < r.2.1)
    (hne : (searchDates msg).isEmpty = false) :
    parseAndReplaceTimes searchDates parseDate msg =
      renderFrom msg 0 (collectReplacements msg parseDate (searchDates msg)) := by
  unfold parseAndReplaceTimes
  simp only [hne, Bool.false_eq_true, if_false]
  have hR : RecsOK msg 0 (collectReplacements msg parseDate (searchDates msg)) := by
    rw [collectReplacements_eq_trace]
    exact recsOK_traceFrom msg parseDate _ 0 0 (Nat.le_refl 0)
  rw [insertionSort_desc_reverse _ (recsOK_strict hR hpos), foldl_apply_reverse msg _ 0 hR]
  simp

lemma trace_nil_of_discards (msg : List Char) (parseDate : List Char → Option Int) :
    ∀ (rs : List (List Char × Int)) (off : Nat),
      (∀ p ∈ rs, rstripPunct p.1 = [] ∨ findFrom msg (rstripPunct p.1) 0 = none ∨
        parseDate (rstripPunct p.1) = none) →
      (traceFrom msg parseDate off rs).filterMap (fun i => i.rec?) = [] := by
  intro rs
  induction rs with
  | nil => intro off _; simp [traceFrom]
  | cons p rest ih =>
    intro off h
    have htail := fun x hx => h x (List.mem_cons_of_mem _ hx)
    have hp' := h p (List.mem_cons_self p rest)
    cases hclean : (rstripPunct p.1).isEmpty with
    | true =>
      have htr : traceFrom msg parseDate off (p :: rest) =
          traceFrom msg parseDate off rest := by
        simp [traceFrom, hclean]
      rw [htr]
      exact ih off htail
    | false =>
      have hcne : rstripPunct p.1 ≠ [] := List.isEmpty_eq_false.mp hclean
      rcases hp' with h1 | h2 | h3
      · exact absurd h1 hcne
      · have hf := findFrom_none_mono h2 off
        have htr : traceFrom msg parseDate off (p :: rest) =
            traceFrom msg parseDate off rest := by
          simp [traceFrom, hclean, hf]
        rw [htr]
        exact ih off htail
      · cases hf : findFrom msg (rstripPunct p.1) off with
        | none =>
          have htr : traceFrom msg parseDate off (p :: rest) =
              traceFrom msg parseDate off rest := by
            simp [traceFrom, hclean, hf]
          rw [htr]
          exact ih off htail
        | some fs =>
          have htr : traceFrom msg parseDate off (p :: rest) =
              ⟨fs, rstripPunct p.1, none⟩ ::
                traceFrom msg parseDate (fs + (rstripPunct p.1).length) rest := by
            simp [traceFrom, hclean, hf, h3]
          rw [htr, List.filterMap_cons]
          exact ih _ htail

/-- C3: the parser locates each match's cleaned literal text by searching from
a monotonically advancing offset, initialised to 0 and advanced just past each
located match (`TraceOK msg 0`), so located occurrences are successive and
disjoint, recorded replacements are ordered and non-overlapping, and repeated
identical phrases anchor at strictly increasing, distinct positions. -/
theorem c3_monotonic_search_offset (msg : List Char) (parseDate : List Char → Option Int)
    (results : List (List Char × Int)) :
    collectReplacements msg parseDate results =
      (traceFrom msg parseDate 0 results).filterMap (fun i => i.rec?) ∧
    TraceOK msg 0 (traceFrom msg parseDate 0 results) ∧
    List.Pairwise
      (fun a b => a.fullStart + a.clean.length ≤ b.fullStart ∧ a.fullStart < b.fullStart)
      (traceFrom msg parseDate 0 results) ∧
    List.Pairwise (fun a b => a.1 + a.2.1 ≤ b.1) (collectReplacements msg parseDate results) ∧
    List.Pairwise
      (fun a b => a.clean = b.clean →
        a.fullStart + (a.clean.length - (timeOnlyOf a.clean).length) <
          b.fullStart + (b.clean.length - (timeOnlyOf b.clean).length))
      (traceFrom msg parseDate 0 results) := by
  have hOK := traceOK_traceFrom msg parseDate results 0
  have hPW := traceOK_pairwise hOK
  refine ⟨collectReplacements_eq_trace msg parseDate results, hOK, ?_, ?_, ?_⟩
  · refine hPW.imp_of_mem ?_
    intro a b ha _ hrel
    have hm := traceOK_mem hOK a ha
    have hlen : 0 < a.clean.length := List.length_pos.mpr hm.2.1
    exact ⟨hrel, by omega⟩
  · rw [collectReplacements_eq_trace]
    exact recsOK_pairwise (recsOK_traceFrom msg parseDate results 0 0 (Nat.le_refl 0))
  · refine hPW.imp_of_mem ?_
    intro a b ha _ hrel heq
    have hm := traceOK_mem hOK a ha
    have hlen : 0 < a.clean.length := List.length_pos.mpr hm.2.1
    have hleneq : a.clean.length = b.clean.length := by rw [heq]
    rw [heq]
    omega

/-- C3 witness: on `"8pm then 8pm again"` with both raw matches equal to
`"8pm"`, the two recorded replacements anchor at the two distinct occurrences. -/
theorem c3_witness :
    collectReplacements (String.toList "8pm then 8pm again") (fun _ => some 9)
        [(String.toList "8pm", 0), (String.toList "8pm", 0)] =
      (traceFrom (String.toList "8pm then 8pm again") (fun _ => some 9) 0
        [(String.toList "8pm", 0), (String.toList "8pm", 0)]).filterMap (fun i => i.rec?) ∧
    collectReplacements (String.toList "8pm then 8pm again") (fun _ => some 9)
        [(String.toList "8pm", 0), (String.toList "8pm", 0)] =
      [(0, 3, String.toList "<t:9:t>"), (9, 3, String.toList "<t:9:t>")] :=
  ⟨(c3_monotonic_search_offset (String.toList "8pm then 8pm again") (fun _ => some 9)
      [(String.toList "8pm", 0), (String.toList "8pm", 0)]).1, by decide⟩

/-- C10: the search offset is advanced past a located match before the
single-phrase re-parse runs, so a match discarded by re-parsing still consumes
its occurrence (its record list is unchanged but the offset advances), and any
later match anchors strictly past a discarded occurrence. -/
theorem c10_discarded_match_consumes_occurrence (msg : List Char)
    (parseDate : List Char → Option Int) :
    (∀ (st : PLoopState) (m : List Char × Int) (fs : Nat),
      rstripPunct m.1 ≠ [] →
      findFrom msg (rstripPunct m.1) st.searchOffset = some fs →
      parseDate (rstripPunct m.1) = none →
      (parseStep msg parseDate st m).searchOffset = fs + (rstripPunct m.1).length ∧
      (parseStep msg parseDate st m).replacements = st.replacements) ∧
    (∀ (results : List (List Char × Int)),
      List.Pairwise
        (fun a b => a.rec? = none →
          a.fullStart + a.clean.length ≤ b.fullStart ∧ a.fullStart < b.fullStart)
        (traceFrom msg parseDate 0 results)) := by
  constructor
  · intro st m fs hne hf hp
    have hclean : (rstripPunct m.1).isEmpty = false := List.isEmpty_eq_false.mpr hne
    constructor <;> simp [parseStep, hclean, hf, hp]
  · intro results
    have hOK := traceOK_traceFrom msg parseDate results 0
    refine (traceOK_pairwise hOK).imp_of_mem ?_
    intro a b ha _ hrel _
    have hm := traceOK_mem hOK a ha
    have hlen : 0 < a.clean.length := List.length_pos.mpr hm.2.1
    exact ⟨hrel, by omega⟩

/-- C10 witness: a match of `"8pm"` at offset 0 that fails re-parsing records
nothing but still advances the offset to 3. -/
theorem c10_witness :
    (parseStep (String.toList "8pm then 8pm") (fun _ => none)
      ⟨0, []⟩ (String.toList "8pm", 0)).searchOffset = 3 ∧
    (parseStep (String.toList "8pm then 8pm") (fun _ => none)
      ⟨0, []⟩ (String.toList "8pm", 0)).replacements = [] := by
  have h := (c10_discarded_match_consumes_occurrence (String.toList "8pm then 8pm")
    (fun _ => none)).1 ⟨0, []⟩ (String.toList "8pm", 0) 0 (by decide) (by decide) rfl
  refine ⟨?_, h.2⟩
  rw [h.1]
  decide

/-- C8: the replacer never fails: with no matches, or with every match
discarded (empty after punctuation stripping, not occurring literally in the
message, or failing single-phrase re-parsing), the original message is
returned unchanged. Totality is inherent in the embedding (the Lean function
is total). -/
theorem c8_degrades_to_identity (searchDates : List Char → List (List Char × Int))
    (parseDate : List Char → Option Int) :
    (∀ msg, searchDates msg = [] → parseAndReplaceTimes searchDates parseDate msg = msg) ∧
    (∀ msg, (∀ p ∈ searchDates msg,
        rstripPunct p.1 = [] ∨ findFrom msg (rstripPunct p.1) 0 = none ∨
          parseDate (rstripPunct p.1) = none) →
      parseAndReplaceTimes searchDates parseDate msg = msg) := by
  constructor
  · intro msg h
    unfold parseAndReplaceTimes
    simp [h]
  · intro msg h
    unfold parseAndReplaceTimes
    cases hne : (searchDates msg).isEmpty with
    | true => simp [hne]
    | false =>
      simp only [hne, Bool.false_eq_true, if_false]
      have hz : collectReplacements msg parseDate (searchDates msg) = [] := by
        rw [collectReplacements_eq_trace]
        exact trace_nil_of_discards msg parseDate (searchDates msg) 0 h
      rw [hz]
      rfl

/-- C8 witness: a message with no time phrases comes back character for
character. -/
theorem c8_witness :
    parseAndReplaceTimes (fun _ => []) (fun _ => none) (String.toList "hello world") =
      String.toList "hello world" :=
  (c8_degrades_to_identity (fun _ => []) (fun _ => none)).1 (String.toList "hello world") rfl

/-- C4: a match whose cleaned text starts (case-insensitively) with one of the
fixed prepositions has only the portion after the preposition replaced: the
record starts right after the preposition, spans the rest of the cleaned text,
and the original preposition characters (which lower-case to the preposition)
survive verbatim in the output immediately before the token; a match with no
leading preposition is replaced in full. -/
theorem c4_preposition_preserved (msg : List Char)
    (searchDates : List Char → List (List Char × Int)) (parseDate : List Char → Option Int)
    (hstrict : ∀ j ∈ traceFrom msg parseDate 0 (searchDates msg), ∀ q, j.rec? = some q → 0 < q.2.1)
    (i : LocInfo) (hi : i ∈ traceFrom msg parseDate 0 (searchDates msg))
    (r : Nat × Nat × List Char) (hr : i.rec? = some r) :
    (∀ p, findPrep i.clean = some p →
      r.1 = i.fullStart + p.length ∧
      r.2.1 = i.clean.length - p.length ∧
      lowerL (i.clean.take p.length) = p ∧
      (msg.take r.1).drop i.fullStart = i.clean.take p.length ∧
      ∃ u v, parseAndReplaceTimes searchDates parseDate msg =
        u ++ i.clean.take p.length ++ r.2.2 ++ v) ∧
    (findPrep i.clean = none →
      r.1 = i.fullStart ∧ r.2.1 = i.clean.length ∧
      ∃ u v, parseAndReplaceTimes searchDates parseDate msg = u ++ r.2.2 ++ v) := by
  have hne : (searchDates msg).isEmpty = false := by
    cases hn : (searchDates msg).isEmpty with
    | false => rfl
    | true =>
      have : searchDates msg = [] := List.isEmpty_iff.mp hn
      rw [this] at hi
      simp [traceFrom] at hi
  have hposall : ∀ q ∈ collectReplacements msg parseDate (searchDates msg), 0 < q.2.1 := by
    intro q hq
    rw [collectReplacements_eq_trace] at hq
    obtain ⟨j, hj, hjq⟩ := List.mem_filterMap.mp hq
    exact hstrict j hj q hjq
  have hout := parseRT_eq_render msg searchDates parseDate hposall hne
  obtain ⟨u, v, hren⟩ :=
    render_decomp msg parseDate (searchDates msg) 0 0 (Nat.le_refl 0) i hi r hr
  have hout2 : parseAndReplaceTimes searchDates parseDate msg =
      u ++ (msg.take r.1).drop i.fullStart ++ r.2.2 ++ v := by
    rw [hout, collectReplacements_eq_trace]
    exact hren
  obtain ⟨ts, hts, hrshape⟩ := trace_rec_shape msg parseDate (searchDates msg) 0 i hi r hr
  obtain ⟨-, hclne, hocc⟩ := traceOK_mem (traceOK_traceFrom msg parseDate (searchDates msg) 0) i hi
  have hto := timeOnly_length_le i.clean
  constructor
  · intro p hp
    have hk := prepLen_eq hp
    have hplen := findPrep_length_le hp
    have hr1 : r.1 = i.fullStart + p.length := by
      rw [hrshape]
      simp
      omega
    have hr2 : r.2.1 = i.clean.length - p.length := by
      rw [hrshape]
      simp
      rw [timeOnly_of_prep hp]
      simp
    have hseg : (msg.take r.1).drop i.fullStart = i.clean.take p.length := by
      rw [hr1, List.drop_take]
      have hcancel : i.fullStart + p.length - i.fullStart = p.length := by omega
      rw [hcancel]
      obtain ⟨t, hti⟩ := (occursAt_iff _ _ _).mp hocc
      rw [hti, List.take_append_of_le_length hplen]
    refine ⟨hr1, hr2, lowerL_take_prep hp, hseg, u, v, ?_⟩
    rw [hout2, hseg]
  · intro hp
    have ht := timeOnly_of_none hp
    have hr1 : r.1 = i.fullStart := by
      rw [hrshape]
      simp [ht]
    have hr2 : r.2.1 = i.clean.length := by
      rw [hrshape]
      simp [ht]
    have hseg : (msg.take r.1).drop i.fullStart = [] := by
      rw [hr1, List.drop_take]
      simp
    refine ⟨hr1, hr2, u, v, ?_⟩
    rw [hout2, hseg]
    simp

/-- C4 witness: in `"Raid starts At 8pm"` the match `"At 8pm"` keeps its
(capitalised) preposition `"At "` verbatim before the token. -/
theorem c4_witness :
    (traceFrom (String.toList "Raid starts At 8pm")
        (fun c => if c = String.toList "At 8pm" then some 123 else none) 0
        [(String.toList "At 8pm", 0)]).filterMap (fun i => i.rec?) =
      [(15, 3, String.toList "<t:123:t>")] ∧
    (∃ u v, parseAndReplaceTimes (fun _ => [(String.toList "At 8pm", 0)])
        (fun c => if c = String.toList "At 8pm" then some 123 else none)
        (String.toList "Raid starts At 8pm") =
      u ++ String.toList "At " ++ String.toList "<t:123:t>" ++ v) := by
  refine ⟨by decide, ?_⟩
  have h := (c4_preposition_preserved (String.toList "Raid starts At 8pm")
      (fun _ => [(String.toList "At 8pm", 0)])
      (fun c => if c = String.toList "At 8pm" then some 123 else none)
      (by decide)
      ⟨12, String.toList "At 8pm", some (15, 3, String.toList "<t:123:t>")⟩
      (by decide)
      (15, 3, String.toList "<t:123:t>") (by decide)).1 (String.toList "at ") (by decide)
  obtain ⟨-, -, -, -, u, v, hout⟩ := h
  exact ⟨u, v, hout⟩

end TimeImpersonator

namespace VoiceLobby

lemma find?_filter_eq_none {α : Type} (p q : α → Bool) (l : List α)
    (h : ∀ x, p x = true → q x = false) : (l.filter q).find? p = none := by
  rw [List.find?_eq_none]
  intro x hx
  obtain ⟨_, hq⟩ := List.mem_filter.mp hx
  intro hp
  rw [h x hp] at hq
  cases hq

lemma find?_filter_comm {α : Type} (p q : α → Bool) :
    ∀ (l : List α), (∀ x, p x = true → q x = true) →
      (l.filter q).find? p = l.find? p := by
  intro l
  induction l with
  | nil => intro _; rfl
  | cons a t ih =>
    intro h
    cases hq : q a with
    | true =>
      rw [List.filter_cons_of_pos hq]
      cases hp : p a with
      | true => simp [List.find?_cons, hp]
      | false => simp [List.find?_cons, hp, ih h]
    | false =>
      rw [List.filter_cons_of_neg (by simp [hq])]
      have hp : p a = false := by
        cases hpa : p a with
        | true => rw [h a hpa] at hq; cases hq
        | false => rfl
      simp [List.find?_cons, hp, ih h]

lemma find?_map_comm {α : Type} (g : α → α) (p : α → Bool) :
    ∀ l : List α, (∀ x, p (g x) = p x) →
      (l.map g).find? p = (l.find? p).map g := by
  intro l
  induction l with
  | nil => intro _; rfl
  | cons c t ih =>
    intro hp
    rw [List.map_cons, List.find?_cons, List.find?_cons, hp c]
    cases hcp : p c with
    | true => rfl
    | false => exact ih hp

lemma mapGet_pop_self (m : SessionMap) (k : Nat) : mapGet (mapPop m k) k = none := by
  unfold mapGet mapPop
  rw [find?_filter_eq_none]
  · rfl
  · intro x hx
    simp at hx ⊢
    exact hx

lemma mapGet_pop_ne (m : SessionMap) {k b : Nat} (h : k ≠ b) :
    mapGet (mapPop m b) k = mapGet m k := by
  unfold mapGet mapPop
  rw [find?_filter_comm]
  intro x hx
  simp at hx ⊢
  omega

lemma getChannel_remove_self (w : GuildWorld) (cid : Nat) :
    getChannel (removeChannel w cid) cid = none := by
  unfold getChannel removeChannel
  rw [find?_filter_eq_none]
  intro x hx
  simp at hx ⊢
  exact hx

lemma mapGet_pop_none (m : SessionMap) (k b : Nat) (h : mapGet m b = none) :
    mapGet (mapPop m k) b = none := by
  unfold mapGet at h ⊢
  unfold mapPop
  rw [Option.map_eq_none'] at h ⊢
  rw [List.find?_eq_none] at h ⊢
  intro x hx
  exact h x (List.mem_filter.mp hx).1

lemma mapGet_insert_ne (m : SessionMap) (k : Nat) (v : LobbySession) (b : Nat)
    (hk : k ≠ b) : mapGet (mapInsert m k v) b = mapGet m b := by
  unfold mapGet mapInsert
  split
  · rw [find?_map_comm (fun e => if e.1 == k then (k, v) else e) (fun e => e.1 == b) m ?_]
    · cases hf : m.find? (fun e => e.1 == b) with
      | none => rfl
      | some e0 =>
        have hp := List.find?_some hf
        have hb : e0.1 = b := by simpa using hp
        have hne : ¬ e0.1 = k := by
          rw [hb]
          exact fun he => hk he.symm
        simp [hne]
    · intro x
      by_cases hx : x.1 = k
      · simp [hx]
      · simp [hx]
  · rw [List.find?_append]
    have h1 : List.find? (fun e => e.1 == b) [(k, v)] = none := by
      simp [hk]
    rw [h1, Option.or_none]

lemma getChannel_map (g : Channel → Channel) (hid : ∀ c, (g c).id = c.id)
    (w : GuildWorld) (b : Nat) :
    getChannel ⟨w.channels.map g⟩ b = (getChannel w b).map g := by
  unfold getChannel
  exact find?_map_comm g (fun c => c.id == b) w.channels
    (fun x => by show ((g x).id == b) = (x.id == b); rw [hid x])

lemma getChannel_removeMember (w : GuildWorld) (mid : Nat) (b : Nat) :
    getChannel (removeMemberEverywhere w mid) b =
      (getChannel w b).map
        (fun c => { c with members := c.members.filter (fun m => m.id != mid) }) := by
  unfold removeMemberEverywhere
  exact getChannel_map
    (fun c => { c with members := c.members.filter (fun m => m.id != mid) })
    (fun c => rfl) w b

lemma getChannel_move_map (w : GuildWorld) (m : Member) (target : Option Nat) (b : Nat) :
    ∃ g : Channel → Channel, (∀ c, ∃ ms, g c = { c with members := ms }) ∧
      getChannel (moveMemberTo w m target) b = (getChannel w b).map g := by
  cases target with
  | none =>
    exact ⟨fun c => { c with members := c.members.filter (fun x => x.id != m.id) },
      fun c => ⟨_, rfl⟩, getChannel_removeMember w m.id b⟩
  | some cid =>
    refine ⟨fun c =>
      (fun c2 => if c2.id == cid then { c2 with members := c2.members ++ [m] } else c2)
        { c with members := c.members.filter (fun x => x.id != m.id) }, ?_, ?_⟩
    · intro c
      by_cases hc : (c.id == cid) = true
      · exact ⟨c.members.filter (fun x => x.id != m.id) ++ [m], by simp [hc]⟩
      · exact ⟨c.members.filter (fun x => x.id != m.id), by simp [hc]⟩
    · have hid2 : ∀ c : Channel,
          ((fun c2 => if c2.id == cid then { c2 with members := c2.members ++ [m] } else c2)
            c).id = c.id := by
        intro c
        by_cases hc2 : (c.id == cid) = true
        · simp [hc2]
        · simp [hc2]
      show getChannel ⟨(removeMemberEverywhere w m.id).channels.map _⟩ b = _
      rw [getChannel_map _ hid2 (removeMemberEverywhere w m.id) b,
        getChannel_removeMember w m.id b]
      cases getChannel w b <;> rfl

lemma getChannel_append_ne (w : GuildWorld) (c0 : Channel) (b : Nat) (h : c0.id ≠ b) :
    getChannel ⟨w.channels ++ [c0]⟩ b = getChannel w b := by
  show (w.channels ++ [c0]).find? (fun c => c.id == b) =
    w.channels.find? (fun c => c.id == b)
  rw [List.find?_append]
  have h1 : List.find? (fun c => c.id == b) [c0] = none := by simp [h]
  rw [h1, Option.or_none]

lemma create_noop (env : TransportEnv) (ev : VoiceEvent) (st : CogState)
    (h : env.createOk = false) : createLobbyForMember env ev st = (st, none, none) := by
  unfold createLobbyForMember
  simp [h]

lemma create_shape (env : TransportEnv) (ev : VoiceEvent) (st : CogState)
    (hck : env.createOk = true) :
    ∃ nc : Channel, nc.id = env.newChannelId ∧
      (createLobbyForMember env ev st).1.sessions =
        mapInsert st.sessions env.newChannelId ⟨ev.guildId, ev.member.id, env.newChannelId⟩ ∧
      ((createLobbyForMember env ev st).1.world =
          moveMemberTo ⟨st.world.channels ++ [nc]⟩ ev.member (some env.newChannelId) ∨
        (createLobbyForMember env ev st).1.world = ⟨st.world.channels ++ [nc]⟩) := by
  refine ⟨{ id := env.newChannelId, isVoice := true, members := [],
            userLimit := max 0 (min env.createConfig.default_user_limit 99),
            chName := sanitizeChannelName env.renderedName }, rfl, ?_, ?_⟩
  · unfold createLobbyForMember
    cases hmv : env.moveOk <;> simp [hck, hmv]
  · unfold createLobbyForMember
    cases hmv : env.moveOk with
    | true => left; simp [hck, hmv]
    | false => right; simp [hck, hmv]

lemma getChannel_create_map (env : TransportEnv) (ev : VoiceEvent) (st : CogState)
    (b : Nat) (hfresh : env.newChannelId ≠ b) :
    ∃ g : Channel → Channel, (∀ c, ∃ ms, g c = { c with members := ms }) ∧
      getChannel (createLobbyForMember env ev st).1.world b =
        (getChannel st.world b).map g ∧
      mapGet (createLobbyForMember env ev st).1.sessions b = mapGet st.sessions b := by
  cases hck : env.createOk with
  | false =>
    rw [create_noop env ev st hck]
    exact ⟨id, fun c => ⟨c.members, rfl⟩, by cases getChannel st.world b <;> rfl, rfl⟩
  | true =>
    obtain ⟨nc, hncid, hsess, hworld⟩ := create_shape env ev st hck
    have hncb : nc.id ≠ b := by rw [hncid]; exact hfresh
    have happ : getChannel (⟨st.world.channels ++ [nc]⟩ : GuildWorld) b =
        getChannel st.world b := getChannel_append_ne st.world nc b hncb
    cases hworld with
    | inl hmv =>
      obtain ⟨g, hg, hw⟩ := getChannel_move_map ⟨st.world.channels ++ [nc]⟩ ev.member
        (some env.newChannelId) b
      refine ⟨g, hg, ?_, ?_⟩
      · rw [hmv, hw, happ]
      · rw [hsess]
        exact mapGet_insert_ne st.sessions env.newChannelId _ b hfresh
    | inr hnm =>
      refine ⟨id, fun c => ⟨c.members, rfl⟩, ?_, ?_⟩
      · rw [hnm, happ]
        cases getChannel st.world b <;> rfl
      · rw [hsess]
        exact mapGet_insert_ne st.sessions env.newChannelId _ b hfresh

lemma afterTransition_preserves_key (env : TransportEnv) (ev : VoiceEvent)
    (st1 : CogState) (acts0 : HandlerActions) (b : Nat)
    (hfresh : env.newChannelId ≠ b) :
    ∃ g : Channel → Channel, (∀ c, ∃ ms, g c = { c with members := ms }) ∧
      getChannel (afterTransition env ev st1 acts0).1.world b =
        (getChannel st1.world b).map g ∧
      (mapGet st1.sessions b = none →
        mapGet (afterTransition env ev st1 acts0).1.sessions b = none) ∧
      (isVoiceChannelIn st1.world b = true →
        mapGet (afterTransition env ev st1 acts0).1.sessions b = mapGet st1.sessions b) := by
  have hid_leaf : ∃ g : Channel → Channel, (∀ c, ∃ ms, g c = { c with members := ms }) ∧
      getChannel st1.world b = (getChannel st1.world b).map g ∧
      (mapGet st1.sessions b = none → mapGet st1.sessions b = none) ∧
      (isVoiceChannelIn st1.world b = true → mapGet st1.sessions b = mapGet st1.sessions b) :=
    ⟨id, fun c => ⟨c.members, rfl⟩, by cases getChannel st1.world b <;> rfl,
      fun h => h, fun _ => rfl⟩
  have hmove_leaf : ∀ target : Option Nat,
      ∃ g : Channel → Channel, (∀ c, ∃ ms, g c = { c with members := ms }) ∧
        getChannel (moveMemberTo st1.world ev.member target) b =
          (getChannel st1.world b).map g ∧
        (mapGet st1.sessions b = none → mapGet st1.sessions b = none) ∧
        (isVoiceChannelIn st1.world b = true →
          mapGet st1.sessions b = mapGet st1.sessions b) := by
    intro target
    obtain ⟨g, hg, hw⟩ := getChannel_move_map st1.world ev.member target b
    exact ⟨g, hg, hw, fun h => h, fun _ => rfl⟩
  have hpop_leaf : ∀ k : Nat, ¬ isVoiceChannelIn st1.world k = true →
      ∃ g : Channel → Channel, (∀ c, ∃ ms, g c = { c with members := ms }) ∧
        getChannel st1.world b = (getChannel st1.world b).map g ∧
        (mapGet st1.sessions b = none → mapGet (mapPop st1.sessions k) b = none) ∧
        (isVoiceChannelIn st1.world b = true →
          mapGet (mapPop st1.sessions k) b = mapGet st1.sessions b) := by
    intro k hdead
    refine ⟨id, fun c => ⟨c.members, rfl⟩, by cases getChannel st1.world b <;> rfl,
      fun h => mapGet_pop_none st1.sessions k b h, fun hvb => ?_⟩
    have hk : b ≠ k := fun he => hdead (by rw [← he]; exact hvb)
    exact mapGet_pop_ne st1.sessions hk
  have hcreate_leaf : ∀ k : Nat, ¬ isVoiceChannelIn st1.world k = true →
      ∃ g : Channel → Channel, (∀ c, ∃ ms, g c = { c with members := ms }) ∧
        getChannel
            (createLobbyForMember env ev ⟨mapPop st1.sessions k, st1.world⟩).1.world b =
          (getChannel st1.world b).map g ∧
        (mapGet st1.sessions b = none →
          mapGet
            (createLobbyForMember env ev ⟨mapPop st1.sessions k, st1.world⟩).1.sessions b =
            none) ∧
        (isVoiceChannelIn st1.world b = true →
          mapGet
            (createLobbyForMember env ev ⟨mapPop st1.sessions k, st1.world⟩).1.sessions b =
            mapGet st1.sessions b) := by
    intro k hdead
    obtain ⟨g, hg, hw, hs⟩ :=
      getChannel_create_map env ev ⟨mapPop st1.sessions k, st1.world⟩ b hfresh
    refine ⟨g, hg, hw, fun h => hs.trans (mapGet_pop_none st1.sessions k b h),
      fun hvb => ?_⟩
    have hk : b ≠ k := fun he => hdead (by rw [← he]; exact hvb)
    exact hs.trans (mapGet_pop_ne st1.sessions hk)
  have hcreate2_leaf :
      ∃ g : Channel → Channel, (∀ c, ∃ ms, g c = { c with members := ms }) ∧
        getChannel (createLobbyForMember env ev st1).1.world b =
          (getChannel st1.world b).map g ∧
        (mapGet st1.sessions b = none →
          mapGet (createLobbyForMember env ev st1).1.sessions b = none) ∧
        (isVoiceChannelIn st1.world b = true →
          mapGet (createLobbyForMember env ev st1).1.sessions b = mapGet st1.sessions b) := by
    obtain ⟨g, hg, hw, hs⟩ := getChannel_create_map env ev st1 b hfresh
    exact ⟨g, hg, hw, fun h => hs.trans h, fun _ => hs⟩
  unfold afterTransition
  split
  · exact hid_leaf
  · split
    · exact hid_leaf
    · split
      · exact hid_leaf
      · split
        · split
          · exact hid_leaf
          · split
            · exact hmove_leaf none
            · exact hid_leaf
        · split
          · exact hid_leaf
          · split
            · exact hid_leaf
            · split
              · exact hmove_leaf none
              · split
                · split
                  · exact hmove_leaf _
                  · split
                    · rename_i hdead _
                      exact hpop_leaf _ hdead
                    · rename_i active hfo hdead _
                      exact hcreate_leaf active.voice_channel_id hdead
                · split
                  · exact hid_leaf
                  · exact hcreate2_leaf

lemma onVoice_leaving (env : TransportEnv) (ev : VoiceEvent) (st : CogState)
    (b : Nat) (session : LobbySession)
    (hbot : ev.member.bot = false) (hbefore : ev.before = some b)
    (hafter : ev.after ≠ some b) (hsess : mapGet st.sessions b = some session) :
    onVoiceStateUpdate env ev st =
      afterTransition env ev (cleanupLobbyIfEmpty env st b).1
        ⟨(cleanupLobbyIfEmpty env st b).2, false, none, none⟩ := by
  have hbne : (ev.after != some b) = true := bne_iff_ne.mpr hafter
  unfold onVoiceStateUpdate
  simp [hbot, hbefore, hsess, hbne]

lemma cleanup_empty_deletes (env : TransportEnv) (st : CogState) (b : Nat)
    (session : LobbySession) (ch : Channel)
    (hsess : mapGet st.sessions b = some session)
    (hvc : session.voice_channel_id = b)
    (hguild : env.guildFound = true)
    (hch : getChannel st.world b = some ch)
    (hvoice : ch.isVoice = true)
    (hmem : ch.members = [])
    (hdel : env.deleteOk = true) :
    cleanupLobbyIfEmpty env st b = (⟨mapPop st.sessions b, removeChannel st.world b⟩, some b) := by
  unfold cleanupLobbyIfEmpty
  simp [hsess, hvc, hguild, hch, hvoice, hmem, hdel]

lemma cleanup_nonempty_noop (env : TransportEnv) (st : CogState) (b : Nat)
    (session : LobbySession) (ch : Channel)
    (hsess : mapGet st.sessions b = some session)
    (hvc : session.voice_channel_id = b)
    (hguild : env.guildFound = true)
    (hch : getChannel st.world b = some ch)
    (hvoice : ch.isVoice = true)
    (hmem : ch.members ≠ []) :
    cleanupLobbyIfEmpty env st b = (st, none) := by
  unfold cleanupLobbyIfEmpty
  simp [hsess, hvc, hguild, hch, hvoice, hmem]

/-- C1 counterexample: a non-bot member leaves tracked channel 7, after which
the channel holds zero non-bot members (one bot remains). The claim requires
deletion and session removal, but `_cleanup_lobby_if_empty` tests
`voice_channel.members` — all members, bots included — so the handler leaves
both the channel and the session record untouched. -/
theorem c1_counterexample :
    (⟨10, false, []⟩ : Member).bot = false ∧
    mapGet [(7, ⟨1, 10, 7⟩)] 7 = some ⟨1, 10, 7⟩ ∧
    (∀ m ∈ (⟨7, true, [⟨99, true, []⟩], 0, []⟩ : Channel).members, m.bot = true) ∧
    (onVoiceStateUpdate ⟨none, ⟨1, false, none, none, 0, [], []⟩, [], true, true, true, true, 0⟩
        ⟨⟨10, false, []⟩, 1, some 7, none⟩
        ⟨[(7, ⟨1, 10, 7⟩)], ⟨[⟨7, true, [⟨99, true, []⟩], 0, []⟩]⟩⟩).1 =
      ⟨[(7, ⟨1, 10, 7⟩)], ⟨[⟨7, true, [⟨99, true, []⟩], 0, []⟩]⟩⟩ := by
  refine ⟨rfl, rfl, by decide, by decide⟩

/-- C1 (amended): when a non-bot member leaves a tracked channel — the after
channel id differing from it or being empty — and the channel is then empty of
ALL members (bots included), the handler deletes the channel and removes the
session record, so after the whole handler run the channel id is a key of
neither the session map nor the guild's channel list; if ANY member remains
(bot or not), the session record is kept and the channel survives with all its
attributes (only its member list can be touched, by the same member's own
move). The freshness hypothesis says the transport never reuses the id of an
existing channel for a newly created one. -/
theorem c1_cleanup_on_empty (env : TransportEnv) (ev : VoiceEvent) (st : CogState)
    (b : Nat) (session : LobbySession) (ch : Channel)
    (hbot : ev.member.bot = false)
    (hbefore : ev.before = some b)
    (hafter : ev.after ≠ some b)
    (hsess : mapGet st.sessions b = some session)
    (hvc : session.voice_channel_id = b)
    (hguild : env.guildFound = true)
    (hch : getChannel st.world b = some ch)
    (hvoice : ch.isVoice = true)
    (hdel : env.deleteOk = true)
    (hfresh : env.newChannelId ≠ b) :
    (ch.members = [] →
      mapGet (onVoiceStateUpdate env ev st).1.sessions b = none ∧
      getChannel (onVoiceStateUpdate env ev st).1.world b = none) ∧
    (ch.members ≠ [] →
      mapGet (onVoiceStateUpdate env ev st).1.sessions b = some session ∧
      ∃ ms, getChannel (onVoiceStateUpdate env ev st).1.world b =
        some { ch with members := ms }) := by
  have hred := onVoice_leaving env ev st b session hbot hbefore hafter hsess
  constructor
  · intro hmem
    have hclean := cleanup_empty_deletes env st b session ch hsess hvc hguild hch hvoice hmem hdel
    obtain ⟨g, hg, hw, hs1, _⟩ := afterTransition_preserves_key env ev
      ⟨mapPop st.sessions b, removeChannel st.world b⟩ ⟨some b, false, none, none⟩ b hfresh
    rw [hred, hclean]
    constructor
    · exact hs1 (mapGet_pop_self st.sessions b)
    · have h2 : getChannel
          (⟨mapPop st.sessions b, removeChannel st.world b⟩ : CogState).world b = none :=
        getChannel_remove_self st.world b
      rw [h2] at hw
      exact hw
  · intro hmem
    have hclean := cleanup_nonempty_noop env st b session ch hsess hvc hguild hch hvoice hmem
    obtain ⟨g, hg, hw, _, hs2⟩ := afterTransition_preserves_key env ev st
      ⟨none, false, none, none⟩ b hfresh
    have hvb : isVoiceChannelIn st.world b = true := by
      unfold isVoiceChannelIn
      rw [hch]
      exact hvoice
    rw [hred, hclean]
    constructor
    · exact (hs2 hvb).trans hsess
    · obtain ⟨ms, hgch⟩ := hg ch
      refine ⟨ms, ?_⟩
      rw [hch, Option.map_some', hgch] at hw
      exact hw

/-- C1 witness, exercising the channel-switch trigger: member 10 moves from
tracked channel 7 to channel 3. When channel 7 is left empty it is deleted and
key 7 leaves the session map; in a second run where member 11 stays behind in
channel 7 the session record is kept. -/
theorem c1_witness :
    mapGet (onVoiceStateUpdate
        ⟨none, ⟨1, false, none, none, 0, [], []⟩, [], true, true, true, true, 0⟩
        ⟨⟨10, false, []⟩, 1, some 7, some 3⟩
        ⟨[(7, ⟨1, 10, 7⟩)], ⟨[⟨7, true, [], 0, []⟩, ⟨3, true, [], 0, []⟩]⟩⟩).1.sessions 7 =
      none ∧
    getChannel (onVoiceStateUpdate
        ⟨none, ⟨1, false, none, none, 0, [], []⟩, [], true, true, true, true, 0⟩
        ⟨⟨10, false, []⟩, 1, some 7, some 3⟩
        ⟨[(7, ⟨1, 10, 7⟩)], ⟨[⟨7, true, [], 0, []⟩, ⟨3, true, [], 0, []⟩]⟩⟩).1.world 7 =
      none ∧
    mapGet (onVoiceStateUpdate
        ⟨none, ⟨1, false, none, none, 0, [], []⟩, [], true, true, true, true, 0⟩
        ⟨⟨10, false, []⟩, 1, some 7, some 3⟩
        ⟨[(7, ⟨1, 10, 7⟩)],
          ⟨[⟨7, true, [⟨11, false, []⟩], 0, []⟩, ⟨3, true, [], 0, []⟩]⟩⟩).1.sessions 7 =
      some ⟨1, 10, 7⟩ := by
  have h1 := c1_cleanup_on_empty
    ⟨none, ⟨1, false, none, none, 0, [], []⟩, [], true, true, true, true, 0⟩
    ⟨⟨10, false, []⟩, 1, some 7, some 3⟩
    ⟨[(7, ⟨1, 10, 7⟩)], ⟨[⟨7, true, [], 0, []⟩, ⟨3, true, [], 0, []⟩]⟩⟩
    7 ⟨1, 10, 7⟩ ⟨7, true, [], 0, []⟩
    rfl rfl (by decide) rfl rfl rfl rfl rfl rfl (by decide)
  have h2 := c1_cleanup_on_empty
    ⟨none, ⟨1, false, none, none, 0, [], []⟩, [], true, true, true, true, 0⟩
    ⟨⟨10, false, []⟩, 1, some 7, some 3⟩
    ⟨[(7, ⟨1, 10, 7⟩)], ⟨[⟨7, true, [⟨11, false, []⟩], 0, []⟩, ⟨3, true, [], 0, []⟩]⟩⟩
    7 ⟨1, 10, 7⟩ ⟨7, true, [⟨11, false, []⟩], 0, []⟩
    rfl rfl (by decide) rfl rfl rfl rfl rfl rfl (by decide)
  obtain ⟨ha, hb⟩ := h1.1 rfl
  exact ⟨ha, hb, (h2.2 (by decide)).1⟩

lemma canJoinLobby_eq_false_iff (m : Member) (o : Nat) (cfg : VoiceLobbyConfig) :
    canJoinLobby m o cfg = false ↔
      (cfg.join_role_ids ≠ [] ∧ m.id ≠ o ∧
        memberHasAnyRole m cfg.join_role_ids = false) := by
  unfold canJoinLobby
  by_cases h1 : m.id = o
  · simp [h1]
  · cases h2 : cfg.join_role_ids.isEmpty with
    | true =>
      have := List.isEmpty_iff.mp h2
      simp [h1, h2, this]
    | false =>
      have := List.isEmpty_eq_false.mp h2
      simp [h1, h2, this]

lemma c5_handler_reduction (env : TransportEnv) (ev : VoiceEvent) (st : CogState)
    (a : Nat) (cfg : VoiceLobbyConfig) (ms : LobbySession)
    (hbot : ev.member.bot = false)
    (hafter : ev.after = some a)
    (hcfg : env.config = some cfg)
    (hen : cfg.enabled = true)
    (hentry : cfg.entry_voice_channel_id.isNone = false)
    (hms : mapGet st.sessions a = some ms)
    (hbeforeNT : ∀ b, ev.before = some b → mapGet st.sessions b = none) :
    onVoiceStateUpdate env ev st =
      if canJoinLobby ev.member ms.owner_id cfg then (st, ⟨none, false, none, none⟩)
      else (⟨st.sessions, moveMemberTo st.world ev.member none⟩, ⟨none, true, none, none⟩) := by
  cases hb : ev.before with
  | none =>
    unfold onVoiceStateUpdate afterTransition
    simp only [hbot, hb, hafter, hcfg, hen, hentry]
    simp [hms]
    cases hcan : canJoinLobby ev.member ms.owner_id cfg <;> simp
  | some b =>
    have hnb := hbeforeNT b hb
    have hba : ¬(b = a) := by
      intro h
      rw [h] at hnb
      rw [hnb] at hms
      cases hms
    unfold onVoiceStateUpdate afterTransition
    simp only [hbot, hb, hafter, hcfg, hen, hentry]
    simp [hnb, hms, hba]
    cases hcan : canJoinLobby ev.member ms.owner_id cfg <;> simp

/-- C5: on an actual transition into a tracked lobby channel (feature enabled,
entry channel configured), the member is forcibly disconnected iff the
configured join-role list is non-empty, the member is not the session owner,
and the member holds none of the listed roles; the owner is never disconnected
by this rule, and with an empty join-role list nobody is. -/
theorem c5_join_policy (env : TransportEnv) (ev : VoiceEvent) (st : CogState)
    (a : Nat) (cfg : VoiceLobbyConfig) (ms : LobbySession)
    (hbot : ev.member.bot = false)
    (hafter : ev.after = some a)
    (hcfg : env.config = some cfg)
    (hen : cfg.enabled = true)
    (hentry : cfg.entry_voice_channel_id.isNone = false)
    (hms : mapGet st.sessions a = some ms)
    (hbeforeNT : ∀ b, ev.before = some b → mapGet st.sessions b = none) :
    ((onVoiceStateUpdate env ev st).2.disconnected = true ↔
      (cfg.join_role_ids ≠ [] ∧ ev.member.id ≠ ms.owner_id ∧
        memberHasAnyRole ev.member cfg.join_role_ids = false)) ∧
    (ev.member.id = ms.owner_id → (onVoiceStateUpdate env ev st).2.disconnected = false) ∧
    (cfg.join_role_ids = [] → (onVoiceStateUpdate env ev st).2.disconnected = false) ∧
    ((onVoiceStateUpdate env ev st).2.disconnected = true →
      (onVoiceStateUpdate env ev st).1 = ⟨st.sessions, moveMemberTo st.world ev.member none⟩) ∧
    ((onVoiceStateUpdate env ev st).2.disconnected = false →
      (onVoiceStateUpdate env ev st).1 = st) := by
  rw [c5_handler_reduction env ev st a cfg ms hbot hafter hcfg hen hentry hms hbeforeNT]
  cases hcan : canJoinLobby ev.member ms.owner_id cfg with
  | true =>
    rw [if_pos rfl]
    refine ⟨?_, fun _ => rfl, fun _ => rfl, ?_, fun _ => rfl⟩
    · constructor
      · intro h
        exact absurd h (by simp)
      · intro hconj
        have hfalse := (canJoinLobby_eq_false_iff ev.member ms.owner_id cfg).mpr hconj
        rw [hcan] at hfalse
        cases hfalse
    · intro h
      exact absurd h (by simp)
  | false =>
    rw [if_neg (by simp)]
    rw [canJoinLobby_eq_false_iff] at hcan
    refine ⟨?_, ?_, ?_, fun _ => rfl, ?_⟩
    · exact ⟨fun _ => hcan, fun _ => rfl⟩
    · intro h
      exact absurd h hcan.2.1
    · intro h
      exact absurd h hcan.1
    · intro h
      exact absurd h (by simp)

/-- C5 witness: member 20 without role 5 joins tracked channel 7 (owner 10,
join allow-list {5}) and is disconnected; the owner re-entering is not. -/
theorem c5_witness :
    (onVoiceStateUpdate
        ⟨some ⟨1, true, some 2, none, 0, [], [5]⟩, ⟨1, false, none, none, 0, [], []⟩,
          [], true, true, true, true, 0⟩
        ⟨⟨20, false, []⟩, 1, none, some 7⟩
        ⟨[(7, ⟨1, 10, 7⟩)], ⟨[⟨7, true, [], 0, []⟩]⟩⟩).2.disconnected = true ∧
    (onVoiceStateUpdate
        ⟨some ⟨1, true, some 2, none, 0, [], [5]⟩, ⟨1, false, none, none, 0, [], []⟩,
          [], true, true, true, true, 0⟩
        ⟨⟨10, false, [9]⟩, 1, none, some 7⟩
        ⟨[(7, ⟨1, 10, 7⟩)], ⟨[⟨7, true, [], 0, []⟩]⟩⟩).2.disconnected = false := by
  constructor
  · exact (c5_join_policy
      ⟨some ⟨1, true, some 2, none, 0, [], [5]⟩, ⟨1, false, none, none, 0, [], []⟩,
        [], true, true, true, true, 0⟩
      ⟨⟨20, false, []⟩, 1, none, some 7⟩
      ⟨[(7, ⟨1, 10, 7⟩)], ⟨[⟨7, true, [], 0, []⟩]⟩⟩
      7 ⟨1, true, some 2, none, 0, [], [5]⟩ ⟨1, 10, 7⟩
      rfl rfl rfl rfl rfl (by decide)
      (by intro b hb; cases hb)).1.mpr ⟨by decide, by decide, by decide⟩
  · exact (c5_join_policy
      ⟨some ⟨1, true, some 2, none, 0, [], [5]⟩, ⟨1, false, none, none, 0, [], []⟩,
        [], true, true, true, true, 0⟩
      ⟨⟨10, false, [9]⟩, 1, none, some 7⟩
      ⟨[(7, ⟨1, 10, 7⟩)], ⟨[⟨7, true, [], 0, []⟩]⟩⟩
      7 ⟨1, true, some 2, none, 0, [], [5]⟩ ⟨1, 10, 7⟩
      rfl rfl rfl rfl rfl (by decide)
      (by intro b hb; cases hb)).2.1 rfl

lemma getChannel_editUserLimit (w : GuildWorld) (cid : Nat) (n : Int) :
    getChannel (editUserLimit w cid n) cid =
      (getChannel w cid).map (fun c => { c with userLimit := n }) := by
  unfold getChannel editUserLimit
  rw [find?_map_comm (fun c => if c.id == cid then { c with userLimit := n } else c)
    (fun c => c.id == cid) w.channels ?_]
  · cases hf : w.channels.find? (fun c => c.id == cid) with
    | none => rfl
    | some c0 =>
      have hp := List.find?_some hf
      show some (if c0.id == cid then { c0 with userLimit := n } else c0) =
        some ({ c0 with userLimit := n } : Channel)
      rw [if_pos hp]
  · intro x
    by_cases hx : x.id = cid
    · simp [hx]
    · simp [hx]

/-- C6: `update_lobby_user_limit` invoked (in a guild, by the owner or with the
session already gone) with a limit outside [0,99] responds with the validation
error and changes nothing; with a limit in [0,99] and an existing voice
channel it edits exactly that channel's user limit, reporting "unlimited"
precisely when the limit is 0. -/
theorem c6_user_limit_validation (userId vcid : Nat) (n : Int) (st : CogState)
    (howner : ∀ s, mapGet st.sessions vcid = some s → s.owner_id = userId) :
    ((n < 0 ∨ 99 < n) → updateLobbyUserLimit true userId vcid n st = (st, .limitRange)) ∧
    (0 ≤ n → n ≤ 99 → ∀ ch, getChannel st.world vcid = some ch → ch.isVoice = true →
      (updateLobbyUserLimit true userId vcid n st).1.sessions = st.sessions ∧
      (updateLobbyUserLimit true userId vcid n st).1.world = editUserLimit st.world vcid n ∧
      getChannel (updateLobbyUserLimit true userId vcid n st).1.world vcid =
        some { ch with userLimit := n } ∧
      (updateLobbyUserLimit true userId vcid n st).2 =
        (if n = 0 then OpResponse.limitRemoved else OpResponse.limitSet n)) := by
  have hcond : ((getLobbyOwner st vcid).isSome &&
      (getLobbyOwner st vcid != some userId)) = false := by
    cases hs : mapGet st.sessions vcid with
    | none => simp [getLobbyOwner, hs]
    | some s => simp [getLobbyOwner, hs, howner s hs]
  constructor
  · intro h
    have hrange : (decide (n < 0) || decide (n > 99)) = true := by
      rcases h with h | h
      · simp [h]
      · simp
        omega
    unfold updateLobbyUserLimit
    simp [hcond, hrange]
  · intro h0 h99 ch hch hv
    have hrange : (decide (n < 0) || decide (n > 99)) = false := by
      simp
      omega
    have hlv : getLobbyVoiceChannel st.world vcid = some ch := by
      unfold getLobbyVoiceChannel
      rw [hch]
      simp [hv]
    have hmain : updateLobbyUserLimit true userId vcid n st =
        (⟨st.sessions, editUserLimit st.world vcid n⟩,
          if n = 0 then OpResponse.limitRemoved else OpResponse.limitSet n) := by
      unfold updateLobbyUserLimit
      simp [hcond, hrange, hlv]
    rw [hmain]
    refine ⟨rfl, rfl, ?_, rfl⟩
    rw [getChannel_editUserLimit, hch]
    rfl

/-- C6 witness: limit 150 on channel 7 is rejected with the channel untouched;
limit 0 is applied and reported as removing the limit. -/
theorem c6_witness :
    updateLobbyUserLimit true 10 7 150 ⟨[(7, ⟨1, 10, 7⟩)], ⟨[⟨7, true, [], 5, []⟩]⟩⟩ =
      (⟨[(7, ⟨1, 10, 7⟩)], ⟨[⟨7, true, [], 5, []⟩]⟩⟩, .limitRange) ∧
    getChannel (updateLobbyUserLimit true 10 7 0
        ⟨[(7, ⟨1, 10, 7⟩)], ⟨[⟨7, true, [], 5, []⟩]⟩⟩).1.world 7 =
      some ⟨7, true, [], 0, []⟩ ∧
    (updateLobbyUserLimit true 10 7 0
        ⟨[(7, ⟨1, 10, 7⟩)], ⟨[⟨7, true, [], 5, []⟩]⟩⟩).2 = .limitRemoved := by
  have hown : ∀ s, mapGet ([(7, (⟨1, 10, 7⟩ : LobbySession))]) 7 = some s → s.owner_id = 10 := by
    intro s hs
    simp [mapGet] at hs
    rw [← hs]
  have h150 := (c6_user_limit_validation 10 7 150 ⟨[(7, ⟨1, 10, 7⟩)], ⟨[⟨7, true, [], 5, []⟩]⟩⟩
    hown).1 (Or.inr (by norm_num))
  have h0 := (c6_user_limit_validation 10 7 0 ⟨[(7, ⟨1, 10, 7⟩)], ⟨[⟨7, true, [], 5, []⟩]⟩⟩
    hown).2 (by norm_num) (by norm_num) ⟨7, true, [], 5, []⟩ (by decide) rfl
  refine ⟨h150, ?_, ?_⟩
  · rw [h0.2.2.1]
  · rw [h0.2.2.2]
    rfl

/-- C7: `close_lobby` invoked by the session owner on a tracked channel that
still exists reports closing, attempts deletion of the channel regardless of
its occupancy, and removes the session record whether or not the deletion
succeeds. -/
theorem c7_close_lobby (deleteOk : Bool) (userId vcid : Nat) (st : CogState)
    (session : LobbySession) (ch : Channel)
    (hsess : mapGet st.sessions vcid = some session)
    (hown : session.owner_id = userId)
    (hvc : session.voice_channel_id = vcid)
    (hch : getChannel st.world vcid = some ch)
    (hvoice : ch.isVoice = true) :
    (closeLobby true deleteOk userId vcid st).2.1 = OpResponse.closing ∧
    (closeLobby true deleteOk userId vcid st).2.2 = some vcid ∧
    mapGet (closeLobby true deleteOk userId vcid st).1.sessions vcid = none := by
  have hcond : ((getLobbyOwner st vcid).isSome &&
      (getLobbyOwner st vcid != some userId)) = false := by
    simp [getLobbyOwner, hsess, hown]
  have hforce : forceCleanupLobby deleteOk st vcid =
      (⟨mapPop st.sessions vcid,
        if deleteOk then removeChannel st.world vcid else st.world⟩, some vcid) := by
    unfold forceCleanupLobby
    simp [hsess, hvc, hch, hvoice]
  unfold closeLobby
  simp [hcond, hforce, mapGet_pop_self]

/-- C7 witness: the owner closes occupied channel 7 while deletion fails; the
deletion is still attempted and the record is still dropped. -/
theorem c7_witness :
    (closeLobby true false 10 7
      ⟨[(7, ⟨1, 10, 7⟩)], ⟨[⟨7, true, [⟨10, false, []⟩, ⟨11, false, []⟩], 0, []⟩]⟩⟩).2.2 =
      some 7 ∧
    mapGet (closeLobby true false 10 7
      ⟨[(7, ⟨1, 10, 7⟩)], ⟨[⟨7, true, [⟨10, false, []⟩, ⟨11, false, []⟩], 0, []⟩]⟩⟩).1.sessions 7 =
      none := by
  have h := c7_close_lobby false 10 7
    ⟨[(7, ⟨1, 10, 7⟩)], ⟨[⟨7, true, [⟨10, false, []⟩, ⟨11, false, []⟩], 0, []⟩]⟩⟩
    ⟨1, 10, 7⟩ ⟨7, true, [⟨10, false, []⟩, ⟨11, false, []⟩], 0, []⟩
    rfl rfl rfl (by decide) rfl
  exact ⟨h.2.1, h.2.2⟩

lemma splitWSAux_nonempty : ∀ (s acc : List Char), ∀ w ∈ splitWSAux s acc, w ≠ [] := by
  intro s
  induction s with
  | nil =>
    intro acc w hw
    unfold splitWSAux at hw
    cases hacc : acc.isEmpty with
    | true => simp [hacc] at hw
    | false =>
      simp [hacc] at hw
      subst hw
      simpa using List.isEmpty_eq_false.mp hacc
  | cons c cs ih =>
    intro acc w hw
    unfold splitWSAux at hw
    cases hsp : isPySpace c with
    | true =>
      cases hacc : acc.isEmpty with
      | true =>
        simp [hsp, hacc] at hw
        exact ih [] w hw
      | false =>
        simp [hsp, hacc] at hw
        rcases hw with hw | hw
        · subst hw
          simpa using List.isEmpty_eq_false.mp hacc
        · exact ih [] w hw
    | false =>
      simp [hsp] at hw
      exact ih (c :: acc) w hw

lemma splitWSAux_nonspace : ∀ (s acc : List Char), (∀ c ∈ acc, isPySpace c = false) →
    ∀ w ∈ splitWSAux s acc, ∀ c ∈ w, isPySpace c = false := by
  intro s
  induction s with
  | nil =>
    intro acc hacc w hw c hc
    unfold splitWSAux at hw
    cases he : acc.isEmpty with
    | true => simp [he] at hw
    | false =>
      simp [he] at hw
      subst hw
      exact hacc c (List.mem_reverse.mp hc)
  | cons a cs ih =>
    intro acc hacc w hw c hc
    unfold splitWSAux at hw
    cases hsp : isPySpace a with
    | true =>
      cases he : acc.isEmpty with
      | true =>
        simp [hsp, he] at hw
        exact ih [] (by intro x hx; cases hx) w hw c hc
      | false =>
        simp [hsp, he] at hw
        rcases hw with hw | hw
        · subst hw
          exact hacc c (List.mem_reverse.mp hc)
        · exact ih [] (by intro x hx; cases hx) w hw c hc
    | false =>
      simp [hsp] at hw
      refine ih (a :: acc) ?_ w hw c hc
      intro x hx
      rcases List.mem_cons.mp hx with rfl | hx
      · exact hsp
      · exact hacc x hx

lemma goodWords_splitWS (s : List Char) : GoodWords (splitWS s) := by
  intro w hw
  exact ⟨splitWSAux_nonempty s [] w hw,
    splitWSAux_nonspace s [] (by intro x hx; cases hx) w hw⟩

lemma joinSpace_ne_nil : ∀ (ws : List (List Char)), ws ≠ [] → GoodWords ws →
    joinSpace ws ≠ [] := by
  intro ws
  match ws with
  | [] => intro h _; exact absurd rfl h
  | [w] =>
    intro _ hg
    simpa [joinSpace] using (hg w (List.mem_cons_self _ _)).1
  | w :: w2 :: rest =>
    intro _ hg
    have hw := (hg w (List.mem_cons_self _ _)).1
    simp [joinSpace]

lemma joinSpace_head_nonspace : ∀ (ws : List (List Char)), GoodWords ws →
    ∀ c, (joinSpace ws).head? = some c → isPySpace c = false := by
  intro ws
  match ws with
  | [] => intro _ c hc; simp [joinSpace] at hc
  | [w] =>
    intro hg c hc
    rw [show joinSpace [w] = w from rfl] at hc
    exact (hg w (List.mem_cons_self _ _)).2 c (List.mem_of_mem_head? (Option.mem_def.mpr hc))
  | w :: w2 :: rest =>
    intro hg c hc
    obtain ⟨hne, hns⟩ := hg w (List.mem_cons_self _ _)
    have hj : joinSpace (w :: w2 :: rest) = w ++ ' ' :: joinSpace (w2 :: rest) := by
      simp [joinSpace]
    rw [hj, List.head?_append] at hc
    cases w with
    | nil => exact absurd rfl hne
    | cons a w' =>
      simp at hc
      rw [← hc]
      exact hns a (List.mem_cons_self _ _)

lemma joinSpace_getLast_nonspace : ∀ (ws : List (List Char)), GoodWords ws →
    ∀ c, (joinSpace ws).getLast? = some c → isPySpace c = false := by
  intro ws
  match ws with
  | [] => intro _ c hc; simp [joinSpace] at hc
  | [w] =>
    intro hg c hc
    rw [show joinSpace [w] = w from rfl] at hc
    exact (hg w (List.mem_cons_self _ _)).2 c (List.mem_of_getLast?_eq_some hc)
  | w :: w2 :: rest =>
    intro hg c hc
    have htail : GoodWords (w2 :: rest) := fun x hx => hg x (List.mem_cons_of_mem _ hx)
    have hj : joinSpace (w :: w2 :: rest) = w ++ ' ' :: joinSpace (w2 :: rest) := by
      simp [joinSpace]
    have hnn : joinSpace (w2 :: rest) ≠ [] := joinSpace_ne_nil _ (by simp) htail
    rw [hj, List.getLast?_append] at hc
    have hlast : (' ' :: joinSpace (w2 :: rest)).getLast? = (joinSpace (w2 :: rest)).getLast? := by
      rw [show (' ' :: joinSpace (w2 :: rest)) = [' '] ++ joinSpace (w2 :: rest) from rfl,
        List.getLast?_append]
      cases hg2 : (joinSpace (w2 :: rest)).getLast? with
      | none => exact absurd (List.getLast?_eq_none_iff.mp hg2) hnn
      | some b => rfl
    rw [hlast] at hc
    cases hg2 : (joinSpace (w2 :: rest)).getLast? with
    | none => exact absurd (List.getLast?_eq_none_iff.mp hg2) hnn
    | some b =>
      rw [hg2] at hc
      simp at hc
      rw [← hc]
      exact joinSpace_getLast_nonspace (w2 :: rest) htail b hg2

lemma chain'_of_all_nonspace (w : List Char) (h : ∀ c ∈ w, isPySpace c = false) :
    List.Chain' (fun a b => ¬(isPySpace a = true ∧ isPySpace b = true)) w := by
  induction w with
  | nil => exact List.chain'_nil
  | cons a t ih =>
    rw [List.chain'_cons']
    refine ⟨?_, ih (fun c hc => h c (List.mem_cons_of_mem _ hc))⟩
    intro y _ hy
    have := h a (List.mem_cons_self _ _)
    rw [this] at hy
    exact absurd hy.1 (by simp)

lemma joinSpace_chain' : ∀ (ws : List (List Char)), GoodWords ws →
    List.Chain' (fun a b => ¬(isPySpace a = true ∧ isPySpace b = true)) (joinSpace ws) := by
  intro ws
  match ws with
  | [] => intro _; exact List.chain'_nil
  | [w] =>
    intro hg
    exact chain'_of_all_nonspace w (hg w (List.mem_cons_self _ _)).2
  | w :: w2 :: rest =>
    intro hg
    have htail : GoodWords (w2 :: rest) := fun x hx => hg x (List.mem_cons_of_mem _ hx)
    obtain ⟨hne, hns⟩ := hg w (List.mem_cons_self _ _)
    have hj : joinSpace (w :: w2 :: rest) = w ++ ' ' :: joinSpace (w2 :: rest) := by
      simp [joinSpace]
    rw [hj, List.chain'_append]
    refine ⟨chain'_of_all_nonspace w hns, ?_, ?_⟩
    · rw [List.chain'_cons']
      refine ⟨?_, joinSpace_chain' (w2 :: rest) htail⟩
      intro y hy hcontra
      have := joinSpace_head_nonspace (w2 :: rest) htail y (Option.mem_def.mp hy)
      rw [this] at hcontra
      exact absurd hcontra.2 (by simp)
    · intro x hx y hy
      have hxw : x ∈ w := List.mem_of_getLast?_eq_some (Option.mem_def.mp hx)
      intro hcontra
      have := hns x hxw
      rw [this] at hcontra
      exact absurd hcontra.1 (by simp)

/-- C9 counterexample: for the 101-character input `"a"*99 ++ " b"` the
sanitised name is `"a"*99 ++ " "` — the 100-character truncation cuts exactly
at the separating space, so the result ends in whitespace, contradicting the
claim that trailing whitespace is removed. -/
theorem c9_counterexample :
    sanitizeChannelName (List.replicate 99 'a' ++ [' ', 'b']) =
      List.replicate 99 'a' ++ [' '] ∧
    (sanitizeChannelName (List.replicate 99 'a' ++ [' ', 'b'])).getLast? = some ' ' ∧
    isPySpace ' ' = true := by
  refine ⟨by decide, ?_, by decide⟩
  have h : sanitizeChannelName (List.replicate 99 'a' ++ [' ', 'b']) =
      List.replicate 99 'a' ++ [' '] := by decide
  rw [h]
  decide

/-- C9 (amended): the sanitised channel name is non-empty (empty or
all-whitespace input yields the fixed default `"Lobby"`), is at most 100
characters, starts with a non-whitespace character, never contains two
adjacent whitespace characters (runs are collapsed), and — unless the
100-character truncation cut the name short — does not end in whitespace.
(The original claim fails only in the truncation case, see the
counterexample.) -/
theorem c9_sanitize_channel_name (name : List Char) :
    sanitizeChannelName name ≠ [] ∧
    (sanitizeChannelName name).length ≤ 100 ∧
    (stripWS name = [] → sanitizeChannelName name = String.toList "Lobby") ∧
    (∀ c, (sanitizeChannelName name).head? = some c → isPySpace c = false) ∧
    List.Chain' (fun a b => ¬(isPySpace a = true ∧ isPySpace b = true))
      (sanitizeChannelName name) ∧
    ((sanitizeChannelName name).length < 100 →
      ∀ c, (sanitizeChannelName name).getLast? = some c → isPySpace c = false) := by
  have hgw := goodWords_splitWS (stripWS name)
  cases hemp : (joinSpace (splitWS (stripWS name))).isEmpty with
  | true =>
    have hres : sanitizeChannelName name = String.toList "Lobby" := by
      unfold sanitizeChannelName
      simp [hemp]
    rw [hres]
    exact ⟨by decide, by decide, fun _ => rfl, by decide,
      chain'_of_all_nonspace _ (by decide), by decide⟩
  | false =>
    have hnm : joinSpace (splitWS (stripWS name)) ≠ [] := List.isEmpty_eq_false.mp hemp
    have hres : sanitizeChannelName name = (joinSpace (splitWS (stripWS name))).take 100 := by
      unfold sanitizeChannelName
      simp [hemp]
    rw [hres]
    refine ⟨?_, ?_, ?_, ?_, ?_, ?_⟩
    · intro h
      rcases List.take_eq_nil_iff.mp h with h | h
      · cases h
      · exact hnm h
    · rw [List.length_take]
      omega
    · intro hstrip
      rw [hstrip] at hnm
      exact absurd rfl hnm
    · intro c hc
      have hh : ((joinSpace (splitWS (stripWS name))).take 100).head? =
          (joinSpace (splitWS (stripWS name))).head? := by
        cases joinSpace (splitWS (stripWS name)) with
        | nil => rfl
        | cons a t => rfl
      rw [hh] at hc
      exact joinSpace_head_nonspace _ hgw c hc
    · exact (joinSpace_chain' _ hgw).take 100
    · intro hlen c hc
      rw [List.length_take] at hlen
      have hfull : (joinSpace (splitWS (stripWS name))).take 100 =
          joinSpace (splitWS (stripWS name)) :=
        List.take_of_length_le (by omega)
      rw [hfull] at hc
      exact joinSpace_getLast_nonspace _ hgw c hc

/-- C9 witness: a messy input is trimmed, collapsed and non-empty; an
all-whitespace input becomes the default name. -/
theorem c9_witness :
    sanitizeChannelName (String.toList "  My   Lobby  ") ≠ [] ∧
    (sanitizeChannelName (String.toList "  My   Lobby  ")).length ≤ 100 ∧
    (stripWS (String.toList "   ") = [] →
      sanitizeChannelName (String.toList "   ") = String.toList "Lobby") := by
  refine ⟨(c9_sanitize_channel_name (String.toList "  My   Lobby  ")).1,
    (c9_sanitize_channel_name (String.toList "  My   Lobby  ")).2.1,
    fun h => (c9_sanitize_channel_name (String.toList "   ")).2.2.1 h⟩

lemma countP_filter_le {α : Type} (p q : α → Bool) (l : List α) :
    (l.filter q).countP p ≤ l.countP p := by
  induction l with
  | nil => simp
  | cons a t ih =>
    rw [List.filter_cons]
    cases hq : q a with
    | true =>
      rw [if_pos rfl, List.countP_cons, List.countP_cons]
      omega
    | false =>
      rw [if_neg (by simp)]
      rw [List.countP_cons]
      omega

lemma two_le_countP {α : Type} (p : α → Bool) (a b : α) (hab : a ≠ b)
    (hpa : p a = true) (hpb : p b = true) :
    ∀ l : List α, a ∈ l → b ∈ l → 2 ≤ l.countP p := by
  intro l
  induction l with
  | nil => intro ha _; cases ha
  | cons x t ih =>
    intro ha hb
    rcases List.mem_cons.mp ha with rfl | hat
    · rcases List.mem_cons.mp hb with rfl | hbt
      · exact absurd rfl hab
      · have h1 : 0 < t.countP p := List.countP_pos_iff.mpr ⟨b, hbt, hpb⟩
        rw [List.countP_cons, if_pos hpa]
        omega
    · rcases List.mem_cons.mp hb with rfl | hbt
      · have h1 : 0 < t.countP p := List.countP_pos_iff.mpr ⟨a, hat, hpa⟩
        rw [List.countP_cons, if_pos hpb]
        omega
      · have := ih hat hbt
        rw [List.countP_cons]
        omega

lemma replace_map_id (k : Nat) (v : LobbySession) :
    ∀ (t : SessionMap), (∀ x ∈ t, (x.1 == k) = false) →
      t.map (fun e => if e.1 == k then (k, v) else e) = t := by
  intro t
  induction t with
  | nil => intro _; rfl
  | cons e t ih =>
    intro h
    rw [List.map_cons, if_neg (by simp [h e (List.mem_cons_self _ _)]),
      ih (fun x hx => h x (List.mem_cons_of_mem _ hx))]

lemma mapInsert_countP_le (m : SessionMap) (k : Nat) (v : LobbySession)
    (p : (Nat × LobbySession) → Bool)
    (hnd : (m.map (fun e => e.1)).Nodup) :
    (mapInsert m k v).countP p ≤ m.countP p + (if p (k, v) then 1 else 0) := by
  unfold mapInsert
  cases hf : (m.find? (fun e => e.1 == k)).isSome with
  | false =>
    rw [if_neg (by simp [hf]), List.countP_append]
    have : List.countP p [(k, v)] = if p (k, v) then 1 else 0 := by
      rw [List.countP_cons]
      simp
    omega
  | true =>
    rw [if_pos (by simp [hf])]
    clear hf
    induction m with
    | nil => simp
    | cons e t ih =>
      rw [List.map_cons] at hnd ⊢
      obtain ⟨hke, hndt⟩ := List.nodup_cons.mp hnd
      cases he : (e.1 == k) with
      | true =>
        rw [if_pos rfl]
        have hkt : ∀ x ∈ t, (x.1 == k) = false := by
          intro x hx
          have hx1 : x.1 ∈ t.map (fun e => e.1) := List.mem_map_of_mem _ hx
          cases hxk : (x.1 == k) with
          | false => rfl
          | true =>
            have : x.1 = k := by simpa using hxk
            rw [this] at hx1
            have : e.1 = k := by simpa using he
            rw [← this] at hx1
            exact absurd hx1 hke
        rw [replace_map_id k v t hkt, List.countP_cons, List.countP_cons]
        omega
      | false =>
        rw [if_neg (by simp)]
        have := ih hndt
        rw [List.countP_cons, List.countP_cons]
        omega

lemma mapInsert_keysConsistent (m : SessionMap) (k : Nat) (v : LobbySession)
    (h : ∀ e ∈ m, e.2.voice_channel_id = e.1) (hv : v.voice_channel_id = k) :
    ∀ e ∈ mapInsert m k v, e.2.voice_channel_id = e.1 := by
  intro e he
  unfold mapInsert at he
  cases hf : (m.find? (fun e => e.1 == k)).isSome with
  | false =>
    rw [if_neg (by simp [hf])] at he
    rcases List.mem_append.mp he with he | he
    · exact h e he
    · rcases List.mem_cons.mp he with rfl | he
      · exact hv
      · cases he
  | true =>
    rw [if_pos (by simp [hf])] at he
    obtain ⟨x, hx, hxe⟩ := List.mem_map.mp he
    by_cases hxk : (x.1 == k) = true
    · rw [if_pos hxk] at hxe
      rw [← hxe]
      exact hv
    · rw [if_neg hxk] at hxe
      rw [← hxe]
      exact h x hx

lemma mapInsert_keysNodup (m : SessionMap) (k : Nat) (v : LobbySession)
    (hnd : (m.map (fun e => e.1)).Nodup) :
    ((mapInsert m k v).map (fun e => e.1)).Nodup := by
  unfold mapInsert
  cases hf : (m.find? (fun e => e.1 == k)).isSome with
  | false =>
    rw [if_neg (by simp [hf])]
    rw [List.map_append]
    rw [List.nodup_append]
    refine ⟨hnd, List.nodup_singleton k, ?_⟩
    intro x hx
    obtain ⟨e, he, rfl⟩ := List.mem_map.mp hx
    have hnone : m.find? (fun e => e.1 == k) = none := by
      cases hff : m.find? (fun e => e.1 == k) with
      | none => rfl
      | some y => rw [hff] at hf; cases hf
    have := List.find?_eq_none.mp hnone e he
    simp at this ⊢
    omega
  | true =>
    rw [if_pos (by simp [hf])]
    have hmap : (m.map (fun e => if e.1 == k then (k, v) else e)).map (fun e => e.1) =
        m.map (fun e => e.1) := by
      rw [List.map_map]
      apply List.map_congr_left
      intro e _
      by_cases he : (e.1 == k) = true
      · simp only [Function.comp]
        rw [if_pos he]
        have : e.1 = k := by simpa using he
        rw [this]
      · simp only [Function.comp]
        rw [if_neg he]
    rw [hmap]
    exact hnd

lemma findOwner_none_iff (m : SessionMap) (g o : Nat) :
    findSessionByOwner m g o = none ↔ sessionCountOwner m g o = 0 := by
  unfold findSessionByOwner sessionCountOwner
  rw [List.find?_eq_none, List.countP_eq_zero]
  constructor
  · intro h e he
    exact h e.2 (List.mem_map_of_mem _ he)
  · intro h s hs
    obtain ⟨e, he, rfl⟩ := List.mem_map.mp hs
    exact h e he

lemma countOwner_pop_found (m : SessionMap) (g o : Nat) (active : LobbySession)
    (hfind : findSessionByOwner m g o = some active)
    (hcount : sessionCountOwner m g o ≤ 1)
    (hkc : ∀ e ∈ m, e.2.voice_channel_id = e.1) :
    sessionCountOwner (mapPop m active.voice_channel_id) g o = 0 := by
  unfold findSessionByOwner at hfind
  have hsmem := List.mem_of_find?_eq_some hfind
  have hpactive := List.find?_some hfind
  obtain ⟨e, he, hev⟩ := List.mem_map.mp hsmem
  have hek : e.1 = active.voice_channel_id := by
    rw [← hkc e he, hev]
  unfold sessionCountOwner mapPop
  rw [List.countP_eq_zero]
  intro x hx
  obtain ⟨hxm, hxk⟩ := List.mem_filter.mp hx
  intro hpx
  have hxe : x ≠ e := by
    intro hcontr
    subst hcontr
    rw [hek] at hxk
    simp at hxk
  have hpe : (fun e => e.2.guild_id == g && e.2.owner_id == o) e = true := by
    show (e.2.guild_id == g && e.2.owner_id == o) = true
    rw [hev]
    exact hpactive
  have h2 := two_le_countP (fun e => e.2.guild_id == g && e.2.owner_id == o)
    x e hxe hpx hpe m hxm he
  unfold sessionCountOwner at hcount
  omega

lemma mapInv_pop (m : SessionMap) (k : Nat) (h : MapInv m) : MapInv (mapPop m k) := by
  obtain ⟨h1, h2, h3⟩ := h
  refine ⟨?_, ?_, ?_⟩
  · intro g o
    have := countP_filter_le (fun e => e.2.guild_id == g && e.2.owner_id == o)
      (fun e => e.1 != k) m
    have hb := h1 g o
    unfold sessionCountOwner at hb ⊢
    unfold mapPop
    omega
  · intro e he
    exact h2 e (List.mem_filter.mp he).1
  · exact List.Nodup.sublist (List.Sublist.map _ (List.filter_sublist m)) h3

lemma mapInv_insert (m : SessionMap) (g o k : Nat)
    (h : MapInv m) (hz : sessionCountOwner m g o = 0) :
    MapInv (mapInsert m k ⟨g, o, k⟩) := by
  obtain ⟨h1, h2, h3⟩ := h
  refine ⟨?_, mapInsert_keysConsistent m k ⟨g, o, k⟩ h2 rfl, mapInsert_keysNodup m k ⟨g, o, k⟩ h3⟩
  intro g' o'
  have hle := mapInsert_countP_le m k ⟨g, o, k⟩
    (fun e => e.2.guild_id == g' && e.2.owner_id == o') h3
  unfold sessionCountOwner at hz h1 ⊢
  cases hpv : ((fun (e : Nat × LobbySession) => e.2.guild_id == g' && e.2.owner_id == o')
      (k, ⟨g, o, k⟩)) with
  | true =>
    have hgg : g = g' ∧ o = o' := by
      simpa using hpv
    rw [hpv] at hle
    simp only [if_true] at hle
    obtain ⟨rfl, rfl⟩ := hgg
    omega
  | false =>
    rw [hpv] at hle
    simp only [Bool.false_eq_true, if_false] at hle
    have := h1 g' o'
    unfold sessionCountOwner at this
    omega

lemma mapInv_create (env : TransportEnv) (ev : VoiceEvent) (st : CogState)
    (h : MapInv st.sessions)
    (hnone : findSessionByOwner st.sessions ev.guildId ev.member.id = none) :
    MapInv (createLobbyForMember env ev st).1.sessions := by
  unfold createLobbyForMember
  cases hck : env.createOk with
  | false => simp [hck]; exact h
  | true =>
    have hz := (findOwner_none_iff _ _ _).mp hnone
    cases hmv : env.moveOk with
    | true =>
      simp only [hck, hmv, Bool.not_true, Bool.false_eq_true, if_false, if_true]
      exact mapInv_insert st.sessions ev.guildId ev.member.id env.newChannelId h hz
    | false =>
      simp only [hck, hmv, Bool.not_true, Bool.false_eq_true, if_false]
      exact mapInv_insert st.sessions ev.guildId ev.member.id env.newChannelId h hz

lemma cleanup_sessions_cases (env : TransportEnv) (st : CogState) (vcid : Nat) :
    (cleanupLobbyIfEmpty env st vcid).1.sessions = st.sessions ∨
    (cleanupLobbyIfEmpty env st vcid).1.sessions = mapPop st.sessions vcid := by
  unfold cleanupLobbyIfEmpty
  cases hm : mapGet st.sessions vcid with
  | none => left; simp [hm]
  | some session =>
    cases hg : env.guildFound with
    | false => right; simp [hm, hg]
    | true =>
      cases hc : getChannel st.world session.voice_channel_id with
      | none => right; simp [hm, hg, hc]
      | some ch =>
        cases hvv : ch.isVoice with
        | false => right; simp [hm, hg, hc, hvv]
        | true =>
          cases hme : ch.members.isEmpty with
          | true => right; simp [hm, hg, hc, hvv, hme, List.isEmpty_iff.mp hme]
          | false => left; simp [hm, hg, hc, hvv, hme, List.isEmpty_eq_false.mp hme]

lemma mapInv_cleanup (env : TransportEnv) (st : CogState) (vcid : Nat)
    (h : MapInv st.sessions) : MapInv (cleanupLobbyIfEmpty env st vcid).1.sessions := by
  rcases cleanup_sessions_cases env st vcid with hc | hc
  · rw [hc]; exact h
  · rw [hc]; exact mapInv_pop st.sessions vcid h

lemma mapInv_afterTransition (env : TransportEnv) (ev : VoiceEvent) (st1 : CogState)
    (acts0 : HandlerActions) (h : MapInv st1.sessions) :
    MapInv (afterTransition env ev st1 acts0).1.sessions := by
  have hcreate1 : ∀ active,
      findSessionByOwner st1.sessions ev.guildId ev.member.id = some active →
      MapInv (createLobbyForMember env ev
        ⟨mapPop st1.sessions active.voice_channel_id, st1.world⟩).1.sessions := by
    intro active hfo
    have hpop : MapInv (mapPop st1.sessions active.voice_channel_id) :=
      mapInv_pop _ _ h
    have hz := countOwner_pop_found st1.sessions ev.guildId ev.member.id
      active hfo (h.1 _ _) h.2.1
    exact mapInv_create env ev ⟨mapPop st1.sessions active.voice_channel_id, st1.world⟩
      hpop ((findOwner_none_iff _ _ _).mpr hz)
  have hcreate2 :
      findSessionByOwner st1.sessions ev.guildId ev.member.id = none →
      MapInv (createLobbyForMember env ev st1).1.sessions := by
    intro hfo
    exact mapInv_create env ev st1 h hfo
  unfold afterTransition
  split
  · exact h
  · split
    · exact h
    · split
      · exact h
      · split
        · split
          · exact h
          · split
            · exact h
            · exact h
        · split
          · exact h
          · split
            · exact h
            · split
              · exact h
              · split
                · split
                  · exact h
                  · split
                    · exact mapInv_pop _ _ h
                    · rename_i active hfo _ _
                      exact hcreate1 active hfo
                · split
                  · exact h
                  · rename_i hfo _
                    exact hcreate2 hfo

lemma mapInv_onVoice (env : TransportEnv) (ev : VoiceEvent) (st : CogState)
    (h : MapInv st.sessions) : MapInv (onVoiceStateUpdate env ev st).1.sessions := by
  have hmix : MapInv ((match ev.before with
      | some b =>
        if (mapGet st.sessions b).isSome && ev.after != some b then
          cleanupLobbyIfEmpty env st b
        else (st, none)
      | none => ((st, none) : CogState × Option Nat)) : CogState × Option Nat).1.sessions := by
    split
    · split
      · exact mapInv_cleanup env st _ h
      · exact h
    · exact h
  unfold onVoiceStateUpdate
  split
  · exact h
  · exact mapInv_afterTransition env ev _ _ hmix

lemma updateLobbyName_sessions (g : Bool) (u v : Nat) (nm : List Char) (st : CogState) :
    (updateLobbyName g u v nm st).1.sessions = st.sessions := by
  simp only [updateLobbyName]
  repeat' split
  all_goals rfl

lemma updateLobbyUserLimit_sessions (g : Bool) (u v : Nat) (n : Int) (st : CogState) :
    (updateLobbyUserLimit g u v n st).1.sessions = st.sessions := by
  simp only [updateLobbyUserLimit]
  repeat' split
  all_goals rfl

lemma closeLobby_sessions_cases (g d : Bool) (u v : Nat) (st : CogState) :
    (closeLobby g d u v st).1.sessions = st.sessions ∨
    (closeLobby g d u v st).1.sessions = mapPop st.sessions v := by
  simp only [closeLobby, forceCleanupLobby]
  repeat' split
  all_goals first
  | (left; rfl)
  | (right; rfl)

lemma reach_mapInv : ∀ st, Reach st → MapInv st.sessions := by
  intro st hr
  induction hr with
  | init w =>
    refine ⟨?_, ?_, ?_⟩
    · intro g o
      simp [sessionCountOwner]
    · intro e he
      cases he
    · simp
  | voice env ev st hst ih => exact mapInv_onVoice env ev st ih
  | rename g u v nm st hst ih =>
    rw [updateLobbyName_sessions]
    exact ih
  | limit g u v n st hst ih =>
    rw [updateLobbyUserLimit_sessions]
    exact ih
  | close g d u v st hst ih =>
    rcases closeLobby_sessions_cases g d u v st with hc | hc
    · rw [hc]
      exact ih
    · rw [hc]
      exact mapInv_pop _ _ ih

lemma c2_entry_owner_move (env : TransportEnv) (ev : VoiceEvent) (st : CogState)
    (a : Nat) (cfg : VoiceLobbyConfig) (active : LobbySession)
    (hbot : ev.member.bot = false)
    (hbefore : ev.before = none)
    (hafter : ev.after = some a)
    (hcfg : env.config = some cfg)
    (hen : cfg.enabled = true)
    (hentry : cfg.entry_voice_channel_id = some a)
    (hnt : mapGet st.sessions a = none)
    (hcc : canCreateLobby ev.member cfg = true)
    (hfo : findSessionByOwner st.sessions ev.guildId ev.member.id = some active)
    (hlive : isVoiceChannelIn st.world active.voice_channel_id = true) :
    onVoiceStateUpdate env ev st =
      (⟨st.sessions, moveMemberTo st.world ev.member (some active.voice_channel_id)⟩,
       ⟨none, false, some active.voice_channel_id, none⟩) := by
  unfold onVoiceStateUpdate afterTransition
  simp [hbot, hbefore, hafter, hcfg, hen, hentry, hnt, hcc, hfo, hlive]

lemma c2_entry_stale_create (env : TransportEnv) (ev : VoiceEvent) (st : CogState)
    (a : Nat) (cfg : VoiceLobbyConfig) (active : LobbySession)
    (hbot : ev.member.bot = false)
    (hbefore : ev.before = none)
    (hafter : ev.after = some a)
    (hcfg : env.config = some cfg)
    (hen : cfg.enabled = true)
    (hentry : cfg.entry_voice_channel_id = some a)
    (hnt : mapGet st.sessions a = none)
    (hcc : canCreateLobby ev.member cfg = true)
    (hfo : findSessionByOwner st.sessions ev.guildId ev.member.id = some active)
    (hdead : isVoiceChannelIn st.world active.voice_channel_id = false)
    (hev : isVoiceChannelIn st.world a = true)
    (hck : env.createOk = true) :
    (onVoiceStateUpdate env ev st).2.created = some env.newChannelId ∧
    (onVoiceStateUpdate env ev st).1.sessions =
      mapInsert (mapPop st.sessions active.voice_channel_id) env.newChannelId
        ⟨ev.guildId, ev.member.id, env.newChannelId⟩ := by
  unfold onVoiceStateUpdate afterTransition createLobbyForMember
  cases hmv : env.moveOk with
  | true =>
    simp [hbot, hbefore, hafter, hcfg, hen, hentry, hnt, hcc, hfo, hdead, hev, hck, hmv]
  | false =>
    simp [hbot, hbefore, hafter, hcfg, hen, hentry, hnt, hcc, hfo, hdead, hev, hck, hmv]

/-- C2: in every state reachable by membership-transition events and owner
operations, the session map holds at most one session per (guild, owner).
Behaviourally, a member connecting into the configured entry channel while
already owning a session whose channel still exists is moved back into that
channel with no new channel and no new session record; only when the recorded
channel is gone is the stale record popped and a fresh lobby created. -/
theorem c2_single_session_per_owner :
    (∀ st, Reach st → ∀ g o, sessionCountOwner st.sessions g o ≤ 1) ∧
    (∀ (env : TransportEnv) (ev : VoiceEvent) (st : CogState) (a : Nat)
        (cfg : VoiceLobbyConfig) (active : LobbySession),
      ev.member.bot = false → ev.before = none → ev.after = some a →
      env.config = some cfg → cfg.enabled = true →
      cfg.entry_voice_channel_id = some a →
      mapGet st.sessions a = none →
      canCreateLobby ev.member cfg = true →
      findSessionByOwner st.sessions ev.guildId ev.member.id = some active →
      ((isVoiceChannelIn st.world active.voice_channel_id = true →
        (onVoiceStateUpdate env ev st).1.sessions = st.sessions ∧
        (onVoiceStateUpdate env ev st).1.world =
          moveMemberTo st.world ev.member (some active.voice_channel_id) ∧
        (onVoiceStateUpdate env ev st).2.movedTo = some active.voice_channel_id ∧
        (onVoiceStateUpdate env ev st).2.created = none) ∧
      (isVoiceChannelIn st.world active.voice_channel_id = false →
        isVoiceChannelIn st.world a = true → env.createOk = true →
        (onVoiceStateUpdate env ev st).2.created = some env.newChannelId ∧
        (onVoiceStateUpdate env ev st).1.sessions =
          mapInsert (mapPop st.sessions active.voice_channel_id) env.newChannelId
            ⟨ev.guildId, ev.member.id, env.newChannelId⟩))) := by
  constructor
  · intro st hr g o
    exact (reach_mapInv st hr).1 g o
  · intro env ev st a cfg active hbot hbefore hafter hcfg hen hentry hnt hcc hfo
    constructor
    · intro hlive
      rw [c2_entry_owner_move env ev st a cfg active
        hbot hbefore hafter hcfg hen hentry hnt hcc hfo hlive]
      exact ⟨rfl, rfl, rfl, rfl⟩
    · intro hdead hev hck
      exact c2_entry_stale_create env ev st a cfg active
        hbot hbefore hafter hcfg hen hentry hnt hcc hfo hdead hev hck

/-- C2 witness: owner 10 already has live lobby 7 and rejoins entry channel 2:
they are moved back, no channel or session is created; in a fresh state the
invariant holds trivially, and the reachable one-session state after a real
creation keeps the count at 1. -/
theorem c2_witness :
    (∀ g o, sessionCountOwner ([] : SessionMap) g o ≤ 1) ∧
    (onVoiceStateUpdate
        ⟨some ⟨1, true, some 2, none, 0, [], []⟩, ⟨1, false, none, none, 0, [], []⟩,
          [], true, true, true, true, 0⟩
        ⟨⟨10, false, []⟩, 1, none, some 2⟩
        ⟨[(7, ⟨1, 10, 7⟩)],
          ⟨[⟨2, true, [⟨10, false, []⟩], 0, []⟩, ⟨7, true, [], 0, []⟩]⟩⟩).1.sessions =
      [(7, ⟨1, 10, 7⟩)] ∧
    (onVoiceStateUpdate
        ⟨some ⟨1, true, some 2, none, 0, [], []⟩, ⟨1, false, none, none, 0, [], []⟩,
          [], true, true, true, true, 0⟩
        ⟨⟨10, false, []⟩, 1, none, some 2⟩
        ⟨[(7, ⟨1, 10, 7⟩)],
          ⟨[⟨2, true, [⟨10, false, []⟩], 0, []⟩, ⟨7, true, [], 0, []⟩]⟩⟩).2.created = none := by
  refine ⟨fun g o => c2_single_session_per_owner.1 ⟨[], ⟨[]⟩⟩ (Reach.init ⟨[]⟩) g o, ?_, ?_⟩
  · exact ((c2_single_session_per_owner.2
      ⟨some ⟨1, true, some 2, none, 0, [], []⟩, ⟨1, false, none, none, 0, [], []⟩,
        [], true, true, true, true, 0⟩
      ⟨⟨10, false, []⟩, 1, none, some 2⟩
      ⟨[(7, ⟨1, 10, 7⟩)],
        ⟨[⟨2, true, [⟨10, false, []⟩], 0, []⟩, ⟨7, true, [], 0, []⟩]⟩⟩
      2 ⟨1, true, some 2, none, 0, [], []⟩ ⟨1, 10, 7⟩
      rfl rfl rfl rfl rfl rfl (by decide) rfl (by decide)).1 (by decide)).1
  · exact ((c2_single_session_per_owner.2
      ⟨some ⟨1, true, some 2, none, 0, [], []⟩, ⟨1, false, none, none, 0, [], []⟩,
        [], true, true, true, true, 0⟩
      ⟨⟨10, false, []⟩, 1, none, some 2⟩
      ⟨[(7, ⟨1, 10, 7⟩)],
        ⟨[⟨2, true, [⟨10, false, []⟩], 0, []⟩, ⟨7, true, [], 0, []⟩]⟩⟩
      2 ⟨1, true, some 2, none, 0, [], []⟩ ⟨1, 10, 7⟩
      rfl rfl rfl rfl rfl rfl (by decide) rfl (by decide)).1 (by decide)).2.2.2

end VoiceLobby
